import Mathlib

set_option maxRecDepth 200000
set_option maxHeartbeats 2000000

/-!
Verification of the EPUB 3 → EPUB 2 conversion core (`EpubConverter` in
`epub3_to_2.py`) against its natural-language specification.

The development shallowly embeds the converter:
* zip archives are lists of named byte entries (bytes as `List Nat`),
* `etree.fromstring` is modelled by an executable XML parser for the
  well-formed subset the converter manipulates (namespace-resolved trees),
* the xpath queries of the source are modelled by the corresponding
  tree-walking functions,
* the textual package patcher (`str.replace`, `re.sub`) is modelled by
  executable left-to-right scanners with Python's leftmost,
  non-overlapping match semantics,
* `EpubConverter.convert` is a function from an input archive to an
  outcome: a full output archive, an error raised before the output file
  is opened, or an error raised while the output archive is being
  written (in which case the partially written archive is recorded).
-/

/-! ## Bytes and UTF-8 (Python `bytes.decode('utf-8')` / `str.encode('utf-8')`) -/

/-- UTF-8 encoding of a single character (code point), as byte values. -/
def utf8EncodeChar (c : Char) : List Nat :=
  let n := c.toNat
  if n < 0x80 then [n]
  else if n < 0x800 then [0xC0 + n / 64, 0x80 + n % 64]
  else if n < 0x10000 then [0xE0 + n / 4096, 0x80 + n / 64 % 64, 0x80 + n % 64]
  else [0xF0 + n / 262144, 0x80 + n / 4096 % 64, 0x80 + n / 64 % 64, 0x80 + n % 64]

/-- UTF-8 encoding of a character sequence (`str.encode('utf-8')`). -/
def utf8Encode (l : List Char) : List Nat :=
  l.flatMap utf8EncodeChar

/-- Whether a byte is a UTF-8 continuation byte (`0x80..0xBF`). -/
def isCont (b : Nat) : Bool := 0x80 ≤ b && b ≤ 0xBF

/-- Strict UTF-8 decoding worker; `fuel` bounds the recursion (one code
point is consumed per step, so `fuel = length` suffices).  Mirrors
Python's strict `bytes.decode('utf-8')`: rejects invalid start bytes,
truncated sequences, overlong forms and surrogates. -/
def utf8DecodeAux : Nat → List Nat → Option (List Char)
  | 0, [] => some []
  | 0, _ :: _ => none
  | _ + 1, [] => some []
  | f + 1, b :: t =>
    if b < 0x80 then
      (utf8DecodeAux f t).map (fun cs => Char.ofNat b :: cs)
    else if 0xC2 ≤ b && b ≤ 0xDF then
      match t with
      | b2 :: t2 =>
        if isCont b2 then
          (utf8DecodeAux f t2).map (fun cs => Char.ofNat ((b - 0xC0) * 64 + (b2 - 0x80)) :: cs)
        else none
      | _ => none
    else if 0xE0 ≤ b && b ≤ 0xEF then
      match t with
      | b2 :: b3 :: t3 =>
        let lo2 := if b = 0xE0 then 0xA0 else 0x80
        let hi2 := if b = 0xED then 0x9F else 0xBF
        if lo2 ≤ b2 && b2 ≤ hi2 && isCont b3 then
          (utf8DecodeAux f t3).map (fun cs =>
            Char.ofNat ((b - 0xE0) * 4096 + (b2 - 0x80) * 64 + (b3 - 0x80)) :: cs)
        else none
      | _ => none
    else if 0xF0 ≤ b && b ≤ 0xF4 then
      match t with
      | b2 :: b3 :: b4 :: t4 =>
        let lo2 := if b = 0xF0 then 0x90 else 0x80
        let hi2 := if b = 0xF4 then 0x8F else 0xBF
        if lo2 ≤ b2 && b2 ≤ hi2 && isCont b3 && isCont b4 then
          (utf8DecodeAux f t4).map (fun cs =>
            Char.ofNat ((b - 0xF0) * 262144 + (b2 - 0x80) * 4096 + (b3 - 0x80) * 64 + (b4 - 0x80)) :: cs)
        else none
      | _ => none
    else none

/-- Strict UTF-8 decoding (`bytes.decode('utf-8')`); `none` models
`UnicodeDecodeError`. -/
def utf8Decode (b : List Nat) : Option (List Char) :=
  utf8DecodeAux b.length b

/-- ISO-8859-1 decoding: every byte maps to the character of the same
code point. -/
def latin1Decode (b : List Nat) : List Char :=
  b.map Char.ofNat

/-- Bytes of a Lean string literal under UTF-8, for building concrete
archive entries. -/
def strBytes (s : String) : List Nat := utf8Encode s.data

/-! ## Substring occurrence (`in` on Python strings, over any element type) -/

/-- Does `pat` occur as a contiguous subsequence of `l`?  Models Python's
substring containment test `pat in l`. -/
def occursIn [DecidableEq α] (pat : List α) : List α → Bool
  | [] => pat.isEmpty
  | a :: l => pat.isPrefixOf (a :: l) || occursIn pat l

/-! ## Generic left-to-right scanner

Python's `str.replace` and `re.sub` both scan the subject left to right,
replace each leftmost non-overlapping match, continue scanning after the
replaced region without rescanning the replacement text, and copy
non-matching characters unchanged.  `scanAux` is that loop, parametrised
by a matcher `m`: at the current position, `m` either yields
`(replacement, rest-after-the-match)` or fails, in which case one
character is copied and the scan moves on. -/

/-- The generic scan loop; `fuel` bounds the recursion (each step either
copies one character or, for any terminating matcher, consumes at least
one, so `fuel = length` suffices). -/
def scanAux (m : List Char → Option (List Char × List Char)) : Nat → List Char → List Char
  | 0, l => l
  | _ + 1, [] => []
  | f + 1, c :: cs =>
    match m (c :: cs) with
    | some (r, t) => r ++ scanAux m f t
    | none => c :: scanAux m f cs

/-- The scan of a whole string. -/
def scanR (m : List Char → Option (List Char × List Char)) (l : List Char) : List Char :=
  scanAux m l.length l

/-- A matcher strictly consumes input whenever it succeeds. -/
def Shrinking (m : List Char → Option (List Char × List Char)) : Prop :=
  ∀ l r t, m l = some (r, t) → t.length < l.length

/-! ## The three text rewrites of `EpubConverter.convert` (lines 116–121) -/

/-- Matcher for Python `str.replace(pat, rep)`: a match is exactly `pat`
at the current position. -/
def mRepl (pat rep : List Char) (l : List Char) : Option (List Char × List Char) :=
  if pat.isEmpty then none
  else if pat.isPrefixOf l then some (rep, l.drop pat.length) else none

/-- Python `content.replace(pat, rep)` (all occurrences, left to right,
non-overlapping). -/
def replaceAll (pat rep l : List Char) : List Char := scanR (mRepl pat rep) l

/-- The literal `properties="` that anchors the navigation-properties
regular expression. -/
def propsLit : List Char := "properties=\"".data

/-- Matcher for `re.sub(r'\s*properties="[^"]*nav[^"]*"', '', content)`:
at the current position, greedily take whitespace, require the literal
`properties="`, take the attribute value up to the next quote, and
require `nav` to occur in it; the whole match is deleted. -/
def mNavProps (l : List Char) : Option (List Char × List Char) :=
  if propsLit.isPrefixOf (l.dropWhile Char.isWhitespace) then
    match ((l.dropWhile Char.isWhitespace).drop propsLit.length).dropWhile (fun c => c ≠ '"') with
    | '"' :: tail =>
      if occursIn "nav".data (((l.dropWhile Char.isWhitespace).drop propsLit.length).takeWhile (fun c => c ≠ '"')) then
        some ([], tail)
      else none
    | _ => none
  else none

/-- The navigation-properties attribute removal of line 117. -/
def subNavProps (l : List Char) : List Char := scanR mNavProps l

/-- The literal `<spine` that anchors the spine regular expression. -/
def spineLit : List Char := "<spine".data

/-- The attribute text ` toc="ncx"` inserted into the spine opening tag. -/
def tocAttrLit : List Char := " toc=\"ncx\"".data

/-- Matcher for `re.sub(r'<spine([^>]*)>', r'<spine\1 toc="ncx">', content)`:
at the current position, require `<spine`, capture up to the next `>`,
and rewrite the tag with ` toc="ncx"` appended to the captured group. -/
def mSpine (l : List Char) : Option (List Char × List Char) :=
  if spineLit.isPrefixOf l then
    match (l.drop spineLit.length).dropWhile (fun c => c ≠ '>') with
    | '>' :: tail =>
      some (spineLit ++ (l.drop spineLit.length).takeWhile (fun c => c ≠ '>') ++ tocAttrLit ++ ['>'], tail)
    | _ => none
  else none

/-- The spine tag rewrite of line 121. -/
def subSpine (l : List Char) : List Char := scanR mSpine l

/-- The literal `version="3.0"` replaced by the patcher. -/
def ver3Lit : List Char := "version=\"3.0\"".data

/-- The replacement literal `version="2.0"`. -/
def ver2Lit : List Char := "version=\"2.0\"".data

/-- The literal `toc.ncx` guarding the manifest/spine insertion. -/
def tocNcxLit : List Char := "toc.ncx".data

/-- The literal `</manifest>` before which the NCX manifest item is
inserted. -/
def manifestEndLit : List Char := "</manifest>".data

/-- The manifest item inserted for the synthesized NCX (line 119). -/
def itemNcxLit : List Char :=
  "<item id=\"ncx\" href=\"toc.ncx\" media-type=\"application/x-dtbncx+xml\"/>".data

/-- The package-document patcher: the body of lines 116–121 of
`EpubConverter.convert`, operating on the decoded package text. -/
def patchOpf (l : List Char) : List Char :=
  let c1 := replaceAll ver3Lit ver2Lit l
  let c2 := subNavProps c1
  if occursIn tocNcxLit c2 then c2
  else subSpine (replaceAll manifestEndLit (itemNcxLit ++ '\n' :: manifestEndLit) c2)

/-! ## Relative posix paths (the `pathlib.PurePosixPath` operations used) -/

/-- Split a character list at every `/` (keeping empty pieces). -/
def splitSlash : List Char → List (List Char)
  | [] => [[]]
  | c :: t =>
    if c = '/' then [] :: splitSlash t
    else
      match splitSlash t with
      | h :: r => (c :: h) :: r
      | [] => [[c]]

/-- Join path components with `/`. -/
def joinSlash : List (List Char) → List Char
  | [] => []
  | [p] => p
  | p :: ps => p ++ '/' :: joinSlash ps

/-- The components of a relative posix path, as `pathlib` normalises
them: empty components and `.` components are dropped. -/
def pathParts (s : String) : List String :=
  ((splitSlash s.data).map (fun p => String.mk p)).filter (fun p => p ≠ "" ∧ p ≠ ".")

/-- `PurePosixPath.as_posix()` of a components list (`.` for the empty
path). -/
def posixOfParts (ps : List String) : String :=
  if ps.isEmpty then "." else String.mk (joinSlash (ps.map String.data))

/-- `PurePosixPath.parent` on components. -/
def pathParent (ps : List String) : List String := ps.dropLast

/-- `PurePosixPath.name` on components (empty for the empty path). -/
def pathName (ps : List String) : String := ps.getLast?.getD ""

/-! ## Whitespace trimming (Python `str.strip()`) -/

/-- Strip leading and trailing whitespace from a character list. -/
def trimChars (l : List Char) : List Char :=
  ((l.dropWhile Char.isWhitespace).reverse.dropWhile Char.isWhitespace).reverse

/-- Python `str.strip()`. -/
def strTrim (s : String) : String := String.mk (trimChars s.data)

/-! ## XML documents

The converter hands every document to `lxml.etree.fromstring` and then
walks the tree with namespace-aware xpath queries.  The model parses the
well-formed subset the converter manipulates (prolog, elements,
double-quoted attributes, text; no comments, CDATA or entity references)
into a namespace-resolved tree: each element carries its resolved
namespace URI and local tag name, and each attribute its resolved
namespace URI (empty for unprefixed attributes), local name and value.
`xmlns` declarations are consumed by resolution and do not appear as
attributes, as with `lxml`. -/

mutual
/-- A namespace-resolved XML node. -/
inductive XTree : Type where
  | elem (ns : String) (tag : String) (attrs : List (String × String × String)) (children : XTrees)
  | text (s : String)
/-- A sequence of XML nodes. -/
inductive XTrees : Type where
  | nil : XTrees
  | cons (hd : XTree) (tl : XTrees) : XTrees
end

mutual
/-- A raw (prefix-unresolved) XML node as read from text. -/
inductive RTree : Type where
  | elem (name : String) (attrs : List (String × String)) (children : RTrees)
  | text (s : String)
/-- A sequence of raw XML nodes. -/
inductive RTrees : Type where
  | nil : RTrees
  | cons (hd : RTree) (tl : RTrees) : RTrees
end

/-- Characters allowed in tag and attribute names. -/
def isNameChar (c : Char) : Bool :=
  !(c.isWhitespace || c = '>' || c = '/' || c = '=' || c = '<' || c = '"' || c = '?')

/-- Drop leading whitespace. -/
def skipWs (l : List Char) : List Char := l.dropWhile Char.isWhitespace

/-- Parse the attribute list of an opening tag up to `>` or `/>`;
returns the attributes, the remaining input and whether the tag was
self-closing. -/
def pAttrs : Nat → List Char → Option (List (String × String) × List Char × Bool)
  | 0, _ => none
  | f + 1, l =>
    match skipWs l with
    | '>' :: t => some ([], t, false)
    | '/' :: '>' :: t => some ([], t, true)
    | l' =>
      let nm := l'.takeWhile isNameChar
      if nm.isEmpty then none
      else
        match skipWs (l'.drop nm.length) with
        | '=' :: r2 =>
          match skipWs r2 with
          | '"' :: r3 =>
            let v := r3.takeWhile (fun c => c ≠ '"')
            match r3.dropWhile (fun c => c ≠ '"') with
            | '"' :: r4 =>
              (pAttrs f r4).map (fun (as_, rest) => ((String.mk nm, String.mk v) :: as_, rest))
            | _ => none
          | _ => none
        | _ => none

mutual
/-- Parse one element (at a `<`). -/
def pElem : Nat → List Char → Option (RTree × List Char)
  | 0, _ => none
  | f + 1, l =>
    match l with
    | '<' :: r =>
      let nm := r.takeWhile isNameChar
      if nm.isEmpty then none
      else
        match pAttrs r.length (r.drop nm.length) with
        | none => none
        | some (attrs, rest, true) => some (.elem (String.mk nm) attrs .nil, rest)
        | some (attrs, rest, false) =>
          match pChildren f rest nm with
          | none => none
          | some (ch, rest2) => some (.elem (String.mk nm) attrs ch, rest2)
    | _ => none
/-- Parse a sequence of child nodes up to the matching closing tag. -/
def pChildren : Nat → List Char → List Char → Option (RTrees × List Char)
  | 0, _, _ => none
  | f + 1, l, closeNm =>
    match l with
    | '<' :: '/' :: r =>
      let nm := r.takeWhile isNameChar
      match skipWs (r.drop nm.length) with
      | '>' :: rest => if nm = closeNm then some (.nil, rest) else none
      | _ => none
    | '<' :: _ =>
      match pElem f l with
      | none => none
      | some (e, rest) =>
        match pChildren f rest closeNm with
        | none => none
        | some (ch, rest2) => some (.cons e ch, rest2)
    | [] => none
    | _ :: _ =>
      let rest := l.dropWhile (fun c => c ≠ '<')
      match pChildren f rest closeNm with
      | none => none
      | some (ch, rest2) => some (.cons (.text (String.mk (l.takeWhile (fun c => c ≠ '<')))) ch, rest2)
end

/-- Skip past the end `?>` of an XML declaration. -/
def dropPastQ : List Char → Option (List Char)
  | [] => none
  | '?' :: '>' :: t => some t
  | _ :: t => dropPastQ t

/-- Parse a whole document's characters into a raw tree. -/
def parseChars (l : List Char) : Option RTree :=
  let l1 := skipWs l
  match (if l1.take 2 = ['<', '?'] then dropPastQ l1 else some l1) with
  | none => none
  | some l2 =>
    let l3 := skipWs l2
    match pElem l3.length l3 with
    | none => none
    | some (t, rest) => if (skipWs rest).isEmpty then some t else none

/-- An in-scope namespace environment: prefix to URI. -/
abbrev NsMap : Type := List (String × String)

/-- Look up a namespace prefix. -/
def nsLookup (m : NsMap) (p : String) : Option String :=
  (m.find? (fun e => e.1 = p)).map (fun e => e.2)

/-- Split a qualified name into prefix (empty when absent) and local
name; fails on more than one colon. -/
def splitQName (s : String) : Option (String × String) :=
  let pre := s.data.takeWhile (fun c => c ≠ ':')
  match s.data.dropWhile (fun c => c ≠ ':') with
  | [] => some ("", s)
  | ':' :: rest => if ':' ∈ rest then none else some (String.mk pre, String.mk rest)
  | _ => none

/-- Is this attribute name an `xmlns` declaration? -/
def isXmlnsAttr (an : String) : Bool :=
  an == "xmlns" || "xmlns:".data.isPrefixOf an.data

/-- Resolve the non-`xmlns` attributes of an element; a bound prefix is
required (as `lxml` requires), unprefixed attributes have no namespace. -/
def resolveAttrs (m : NsMap) : List (String × String) → Option (List (String × String × String))
  | [] => some []
  | (an, av) :: rest =>
    match splitQName an with
    | none => none
    | some (p, loc) =>
      match (if p = "" then some "" else nsLookup m p) with
      | none => none
      | some uri => (resolveAttrs m rest).map (fun ras => (uri, loc, av) :: ras)

mutual
/-- Resolve namespaces in a raw tree (as `lxml` does while parsing). -/
def resolveTree (m : NsMap) : RTree → Option XTree
  | .text s => some (.text s)
  | .elem nm attrs ch =>
    let m' : NsMap :=
      (attrs.filterMap (fun (an, av) =>
        if an = "xmlns" then some ("", av)
        else if "xmlns:".data.isPrefixOf an.data then some (String.mk (an.data.drop 6), av)
        else none)) ++ m
    match splitQName nm with
    | none => none
    | some (p, loc) =>
      match (if p = "" then some ((nsLookup m' "").getD "") else nsLookup m' p) with
      | none => none
      | some uri =>
        match resolveAttrs m' (attrs.filter (fun a => !isXmlnsAttr a.1)) with
        | none => none
        | some ras =>
          match resolveTrees m' ch with
          | none => none
          | some xch => some (.elem uri loc ras xch)
/-- Resolve namespaces in a raw node sequence. -/
def resolveTrees (m : NsMap) : RTrees → Option XTrees
  | .nil => some .nil
  | .cons h t =>
    match resolveTree m h with
    | none => none
    | some xh =>
      match resolveTrees m t with
      | none => none
      | some xt => some (.cons xh xt)
end

/-- The model of `etree.fromstring` on entry bytes: decode (UTF-8, or
ISO-8859-1 when the document declares that encoding, as `lxml` honours
the declaration), parse, resolve namespaces.  `none` models
`XMLSyntaxError`. -/
def parseXml (b : List Nat) : Option XTree :=
  match utf8Decode b with
  | some cs => (parseChars cs).bind (resolveTree [("", "")])
  | none =>
    if occursIn (strBytes "encoding=\"ISO-8859-1\"") b then
      (parseChars (latin1Decode b)).bind (resolveTree [("", "")])
    else none

/-! ## The namespace URIs of `EpubConverter.NAMESPACES` -/

/-- Container namespace (`n`). -/
def nsContainer : String := "urn:oasis:names:tc:opendocument:xmlns:container"

/-- OPF namespace (`opf`). -/
def nsOpf : String := "http://www.idpf.org/2007/opf"

/-- XHTML namespace (`xhtml`). -/
def nsXhtml : String := "http://www.w3.org/1999/xhtml"

/-- EPUB operations namespace (`epub`). -/
def nsOps : String := "http://www.idpf.org/2007/ops"

/-- Dublin Core namespace (`dc`). -/
def nsDc : String := "http://purl.org/dc/elements/1.1/"

/-! ## The xpath queries of the source, as tree walks -/

mutual
/-- All descendant-or-self elements with the given resolved namespace
and tag, in document (pre-)order: the `//ns:tag` query. -/
def XTree.descElems (ns tag : String) : XTree → List XTree
  | .elem ns' tag' a ch =>
    (if ns' = ns ∧ tag' = tag then [XTree.elem ns' tag' a ch] else []) ++ XTrees.descElemsAll ns tag ch
  | .text _ => []
/-- `XTree.descElems` over a node sequence. -/
def XTrees.descElemsAll (ns tag : String) : XTrees → List XTree
  | .nil => []
  | .cons h tl => XTree.descElems ns tag h ++ XTrees.descElemsAll ns tag tl
end

/-- The children of a node as a plain list. -/
def XTrees.toList : XTrees → List XTree
  | .nil => []
  | .cons h tl => h :: tl.toList

/-- `element.get(name)`: the value of the unnamespaced attribute
`name`, if present. -/
def XTree.attr (name : String) : XTree → Option String
  | .elem _ _ attrs _ => (attrs.find? (fun a => a.1 = "" ∧ a.2.1 = name)).map (fun a => a.2.2)
  | .text _ => none

/-- The value of the namespaced attribute `{ns}name`, if present (used
for `@epub:type`). -/
def XTree.attrNS (ns name : String) : XTree → Option String
  | .elem _ _ attrs _ => (attrs.find? (fun a => a.1 = ns ∧ a.2.1 = name)).map (fun a => a.2.2)
  | .text _ => none

/-- Whether a node is an element with the given resolved name. -/
def XTree.isElem (ns tag : String) : XTree → Bool
  | .elem ns' tag' _ _ => ns' = ns ∧ tag' = tag
  | .text _ => false

/-- The direct element children with the given resolved name: the
`./ns:tag` query. -/
def XTree.childElems (ns tag : String) : XTree → List XTree
  | .elem _ _ _ ch => ch.toList.filter (XTree.isElem ns tag)
  | .text _ => []

/-- The direct text-node children of an element: the `text()` step. -/
def XTree.directTexts : XTree → List String
  | .elem _ _ _ ch => ch.toList.filterMap (fun c => match c with | .text s => some s | _ => none)
  | .text _ => []

mutual
/-- `element.itertext()` joined: all text in the subtree, in document
order. -/
def XTree.itertext : XTree → String
  | .elem _ _ _ ch => XTrees.itertextAll ch
  | .text s => s
/-- `XTree.itertext` over a node sequence. -/
def XTrees.itertextAll : XTrees → String
  | .nil => ""
  | .cons h tl => XTree.itertext h ++ XTrees.itertextAll tl
end

/-- `//n:rootfile/@full-path` (line 76): the `full-path` attributes of
all container `rootfile` elements. -/
def rootfilePaths (x : XTree) : List String :=
  (x.descElems nsContainer "rootfile").filterMap (XTree.attr "full-path")

/-- `//dc:tag/text()` (line 34): the direct text of all matching Dublin
Core elements. -/
def dcTexts (x : XTree) (tag : String) : List String :=
  (x.descElems nsDc tag).flatMap XTree.directTexts

/-- `EpubConverter._get_metadata`: first matching text, stripped; empty
when absent. -/
def getMetadata (x : XTree) (tag : String) : String :=
  match dcTexts x tag with
  | [] => ""
  | s :: _ => strTrim s

/-- `//opf:item[contains(@properties, "nav")]` (line 86). -/
def navPropItems (x : XTree) : List XTree :=
  (x.descElems nsOpf "item").filter (fun it =>
    match it.attr "properties" with
    | some p => occursIn "nav".data p.data
    | none => false)

/-- `//xhtml:nav[@epub:type="toc"]` (line 92). -/
def tocNavElems (x : XTree) : List XTree :=
  (x.descElems nsXhtml "nav").filter (fun n => n.attrNS nsOps "type" = some "toc")

/-- `//xhtml:nav` (line 93, the fallback). -/
def allNavElems (x : XTree) : List XTree :=
  x.descElems nsXhtml "nav"

/-- `./xhtml:ol` on a nav element (lines 94–95). -/
def childOls (x : XTree) : List XTree :=
  x.childElems nsXhtml "ol"

/-- The first direct `xhtml:a` child of a list item (`a_tags[0]`,
line 44). -/
def firstAnchor (ch : XTrees) : Option XTree :=
  ch.toList.find? (XTree.isElem nsXhtml "a")

/-! ## The navigation tree (`_parse_nav_level`, lines 37–53) -/

/-- The Python exceptions that can escape `EpubConverter.convert`. -/
inductive PyErr : Type where
  | keyErr (name : String)
  | parseFailed (doc : String)
  | indexErr
  | typeErr
  | decodeErr
  deriving DecidableEq

mutual
/-- A parsed navigation item: the dictionary
`{'text': …, 'src': …, 'children': […]}`.  `src` is `none` when the
anchor had no `href` attribute and the navigation directory was flat
(Python keeps `None` there). -/
inductive NavItem : Type where
  | mk (text : String) (src : Option String) (children : NavForest)
/-- An ordered sequence of navigation items. -/
inductive NavForest : Type where
  | nil : NavForest
  | cons (hd : NavItem) (tl : NavForest) : NavForest
end

/-- Line 47: `src = (nav_rel_dir / href).as_posix() if nav_rel_dir.name
else href`.  Raises `TypeError` when `href` is `None` and the directory
is non-trivial (Python cannot join a path with `None`). -/
def mkSrc (dir : List String) (href : Option String) : Except PyErr (Option String) :=
  if pathName dir ≠ "" then
    match href with
    | none => .error .typeErr
    | some h => .ok (some (posixOfParts (dir ++ pathParts h)))
  else .ok href

mutual
/-- `EpubConverter._parse_nav_level` on an `ol` element: parse its list
items into a navigation forest. -/
def parseNavLevel (ol : XTree) (dir : List String) : Except PyErr NavForest :=
  match ol with
  | .elem _ _ _ ch => parseLis ch dir
  | .text _ => .ok .nil
/-- The loop over `./xhtml:li` children (line 40); non-`li` nodes are
not matched by the query and skipped. -/
def parseLis (ns : XTrees) (dir : List String) : Except PyErr NavForest :=
  match ns with
  | .nil => .ok .nil
  | .cons li t =>
    match li with
    | .elem lns ltag _ lch =>
      if lns = nsXhtml ∧ ltag = "li" then
        match firstAnchor lch with
        | none => parseLis t dir
        | some anchor =>
          match mkSrc dir (anchor.attr "href") with
          | .error e => .error e
          | .ok src =>
            match parseFirstOl lch dir with
            | .error e => .error e
            | .ok children =>
              match parseLis t dir with
              | .error e => .error e
              | .ok rest => .ok (.cons (.mk (strTrim anchor.itertext) src children) rest)
      else parseLis t dir
    | .text _ => parseLis t dir
/-- The first `./xhtml:ol` child of a list item, recursively parsed
(lines 49–51); no nested list yields no children. -/
def parseFirstOl (ns : XTrees) (dir : List String) : Except PyErr NavForest :=
  match ns with
  | .nil => .ok .nil
  | .cons h t =>
    match h with
    | .elem ons otag oa och =>
      if ons = nsXhtml ∧ otag = "ol" then parseNavLevel (.elem ons otag oa och) dir
      else parseFirstOl t dir
    | .text _ => parseFirstOl t dir
end

/-! ## NCX synthesis (`_build_ncx_points`, lines 55–68, and lines 99–105) -/

/-- Python f-string interpolation of the stored target: `None` renders
as the text `None`. -/
def srcText : Option String → String
  | none => "None"
  | some s => s

mutual
/-- `EpubConverter._build_ncx_points`: emit the `navPoint` XML for a
forest, threading the play-order counter; returns the XML and the
counter after the walk. -/
def buildNcxPoints : NavForest → Nat → String × Nat
  | .nil, c => ("", c)
  | .cons item rest, c =>
    let (x1, c1) := buildNcxPoint item c
    let (x2, c2) := buildNcxPoints rest c1
    (x1 ++ x2, c2)
/-- One item: emit its `navPoint`, increment the counter, recurse into
the children, close the point. -/
def buildNcxPoint : NavItem → Nat → String × Nat
  | .mk t s ch, c =>
    let head := "<navPoint id=\"nav_" ++ Nat.repr c ++ "\" playOrder=\"" ++ Nat.repr c ++
      "\">\n  <navLabel><text>" ++ t ++ "</text></navLabel>\n  <content src=\"" ++
      srcText s ++ "\"/>\n"
    let (childXml, c') := buildNcxPoints ch (c + 1)
    (head ++ childXml ++ "</navPoint>\n", c')
end

mutual
/-- Total number of items in a forest, across all levels. -/
def countForest : NavForest → Nat
  | .nil => 0
  | .cons i r => countItem i + countForest r
/-- Total number of items in an item's subtree (itself included). -/
def countItem : NavItem → Nat
  | .mk _ _ ch => 1 + countForest ch
end

mutual
/-- The play-order numbers assigned by `buildNcxPoints` starting from
counter `c`, in emission (pre-)order. -/
def playOrders : NavForest → Nat → List Nat
  | .nil, _ => []
  | .cons i r, c => playOrdersItem i c ++ playOrders r (c + countItem i)
/-- The play-order numbers assigned in one item's subtree: the item
itself, then its descendants. -/
def playOrdersItem : NavItem → Nat → List Nat
  | .mk _ _ ch, c => c :: playOrders ch (c + 1)
end

/-- The complete NCX document string of lines 100–105. -/
def ncxDoc (title author content : String) : String :=
  let docAuthor := if author = "" then "" else "<docAuthor><text>" ++ author ++ "</text></docAuthor>"
  "<?xml version=\"1.0\" encoding=\"UTF-8\"?>\n" ++
  "<ncx xmlns=\"http://www.daisy.org/z3986/2005/ncx/\" version=\"2005-1\">\n" ++
  "<head><meta name=\"dtb:uid\" content=\"auto-gen\"/><meta name=\"dtb:depth\" content=\"3\"/></head>\n" ++
  "<docTitle><text>" ++ title ++ "</text></docTitle>" ++ docAuthor ++ "\n" ++
  "<navMap>\n" ++ content ++ "</navMap></ncx>"

/-! ## The archive model (`zipfile` as used by the converter) -/

/-- One archive entry: name, raw bytes, and whether it is stored
uncompressed (`ZIP_STORED`) rather than deflated. -/
structure ZEntry : Type where
  name : String
  data : List Nat
  stored : Bool
  deriving DecidableEq

/-- An archive: its entries in order. -/
structure Zip : Type where
  entries : List ZEntry
  deriving DecidableEq

/-- `zin.read(name)` resolves a name through the name-to-info map, in
which a later entry of the same name overrides an earlier one; `none`
models `KeyError`. -/
def zreadOpt (z : Zip) (n : String) : Option (List Nat) :=
  z.entries.foldl (fun acc e => if e.name = n then some e.data else acc) none

/-- `zin.read(name)` when the entry is known to exist. -/
def zreadD (z : Zip) (n : String) : List Nat := (zreadOpt z n).getD []

/-- `name in zin.namelist()`. -/
def hasEntryNamed (z : Zip) (n : String) : Bool := z.entries.any (fun e => e.name = n)

/-- The result of one `convert` call: a fully written output archive, an
error raised before the output file is opened, or an error raised while
writing the output (the entries already written remain on disk). -/
inductive Outcome : Type where
  | ok (out : Zip)
  | err (e : PyErr)
  | errMid (e : PyErr) (written : Zip)
  deriving DecidableEq

/-- The copy loop of lines 111–124: skip `mimetype`, patch the package
document (its bytes must decode as UTF-8; failure aborts the write,
keeping the entries emitted so far), copy every other entry with its
original bytes and storage mode. -/
def copyLoop (z : Zip) (opfName : String) : List ZEntry → List ZEntry → List ZEntry ⊕ List ZEntry
  | acc, [] => .inr acc
  | acc, e :: rest =>
    if e.name = "mimetype" then copyLoop z opfName acc rest
    else if e.name = opfName then
      match utf8Decode (zreadD z e.name) with
      | none => .inl acc
      | some cs =>
        copyLoop z opfName (acc ++ [⟨e.name, utf8Encode (patchOpf cs), false⟩]) rest
    else copyLoop z opfName (acc ++ [⟨e.name, zreadD z e.name, e.stored⟩]) rest

/-- Lines 108–125: write `mimetype` first and uncompressed when
present, run the copy loop, then append the synthesized NCX next to the
package document (deflated, as a by-name write). -/
def writeOut (z : Zip) (opfName tocName ncx : String) : Outcome :=
  let acc0 : List ZEntry :=
    if hasEntryNamed z "mimetype" then [⟨"mimetype", zreadD z "mimetype", true⟩] else []
  match copyLoop z opfName acc0 z.entries with
  | .inl written => .errMid .decodeErr ⟨written⟩
  | .inr acc => .ok ⟨acc ++ [⟨tocName, strBytes ncx, false⟩]⟩

/-- Lines 84–96: locate the navigation document through the manifest
`properties` marker and parse its table-of-contents `nav` element into a
navigation forest; no marker, no `nav` element or no top-level `ol`
yields the empty forest. -/
def buildNavForest (z : Zip) (ox : XTree) (opfParts : List String) : Except PyErr NavForest :=
  match navPropItems ox with
  | [] => .ok .nil
  | it :: _ =>
    match it.attr "href" with
    | none => .error .typeErr
    | some nh =>
      let navFull := posixOfParts (pathParent opfParts ++ pathParts nh)
      match zreadOpt z navFull with
      | none => .error (.keyErr navFull)
      | some nb =>
        match parseXml nb with
        | none => .error (.parseFailed "nav")
        | some nx =>
          let navNodes := match tocNavElems nx with | [] => allNavElems nx | l => l
          match navNodes with
          | [] => .ok .nil
          | nv :: _ =>
            match childOls nv with
            | [] => .ok .nil
            | ol :: _ => parseNavLevel ol (pathParent (pathParts nh))

/-- The container/package location steps of lines 74–79, as a value:
the components of the package document path, when they can be found. -/
def opfPartsOf (z : Zip) : Option (List String) :=
  (zreadOpt z "META-INF/container.xml").bind (fun cb =>
    (parseXml cb).bind (fun cx =>
      match rootfilePaths cx with
      | [] => none
      | p :: _ => some (pathParts p)))

/-- `EpubConverter.convert` (lines 70–125) on an opened input archive:
the play-order counter is reset (the NCX walk starts at 1), the
container is read and parsed, the package document is read and parsed,
metadata and the navigation forest are extracted, the NCX is
synthesized, and the output archive is written. -/
def convert (z : Zip) : Outcome :=
  match zreadOpt z "META-INF/container.xml" with
  | none => .err (.keyErr "META-INF/container.xml")
  | some cb =>
    match parseXml cb with
    | none => .err (.parseFailed "container")
    | some cx =>
      match rootfilePaths cx with
      | [] => .err .indexErr
      | p :: _ =>
        let opfParts := pathParts p
        let opfName := posixOfParts opfParts
        match zreadOpt z opfName with
        | none => .err (.keyErr opfName)
        | some ob =>
          match parseXml ob with
          | none => .err (.parseFailed "opf")
          | some ox =>
            let t0 := getMetadata ox "title"
            let title := if t0 = "" then "Untitled" else t0
            let author := getMetadata ox "creator"
            match buildNavForest z ox opfParts with
            | .error e => .err e
            | .ok navf =>
              let ncx := ncxDoc title author (buildNcxPoints navf 1).1
              writeOut z opfName (posixOfParts (pathParent opfParts ++ ["toc.ncx"])) ncx

/-- Witness text for the patcher theorems: prefix up to the version
attribute. -/
def wOpfA : List Char := "<package ".data

/-- Witness text between the version attribute and the properties
attribute. -/
def wOpfB : List Char :=
  " xmlns=\"http://www.idpf.org/2007/opf\"><manifest><item id=\"nav\" href=\"nav.xhtml\"".data

/-- Witness text after the properties attribute, containing a
`toc.ncx` reference. -/
def wOpfC : List Char :=
  " media-type=\"application/xhtml+xml\"/><item id=\"t\" href=\"toc.ncx\"/></manifest><spine/></package>".data

/-- Witness text between the version and properties attributes for the
insertion scenario. -/
def wInsB : List Char := " xmlns=\"http://www.idpf.org/2007/opf\"><manifest><item id=\"nav\" href=\"nav.xhtml\"".data

/-- Witness text between the properties attribute and the manifest
closing tag for the insertion scenario. -/
def wInsC : List Char := " media-type=\"application/xhtml+xml\"/>".data

/-- Witness tail after the spine opening tag for the insertion
scenario. -/
def wInsE : List Char := "</spine></package>".data

/-! ## Concrete archives for counterexamples and witnesses -/

/-- A root container descriptor naming `content.opf`. -/
def containerXmlDoc : String :=
  "<container xmlns=\"urn:oasis:names:tc:opendocument:xmlns:container\"><rootfiles><rootfile full-path=\"content.opf\"/></rootfiles></container>"

/-- A root container descriptor naming `OEBPS/content.opf`. -/
def containerSubXmlDoc : String :=
  "<container xmlns=\"urn:oasis:names:tc:opendocument:xmlns:container\"><rootfiles><rootfile full-path=\"OEBPS/content.opf\"/></rootfiles></container>"

/-- An EPUB 3 package document with a navigation-marked manifest item. -/
def opfXmlDoc : String :=
  "<package xmlns=\"http://www.idpf.org/2007/opf\" version=\"3.0\"><metadata xmlns:dc=\"http://purl.org/dc/elements/1.1/\"><dc:title>T</dc:title></metadata><manifest><item id=\"nav\" href=\"nav.xhtml\" properties=\"nav\" media-type=\"application/xhtml+xml\"/></manifest><spine></spine></package>"

/-- A minimal package document without a navigation item. -/
def opfPlainXmlDoc : String :=
  "<package xmlns=\"http://www.idpf.org/2007/opf\" version=\"3.0\"><manifest></manifest><spine></spine></package>"

/-- An EPUB 3 navigation document with one table-of-contents entry. -/
def navXmlDoc : String :=
  "<html xmlns=\"http://www.w3.org/1999/xhtml\" xmlns:epub=\"http://www.idpf.org/2007/ops\"><body><nav epub:type=\"toc\"><ol><li><a href=\"c1.xhtml\">One</a></li></ol></nav></body></html>"

/-- A representative EPUB 3 archive with the package document at the
archive root; its `mimetype` entry is deliberately deflated in the
input. -/
def zEx : Zip := ⟨[
  ⟨"mimetype", strBytes "application/epub+zip", false⟩,
  ⟨"META-INF/container.xml", strBytes containerXmlDoc, false⟩,
  ⟨"content.opf", strBytes opfXmlDoc, false⟩,
  ⟨"nav.xhtml", strBytes navXmlDoc, false⟩,
  ⟨"c1.xhtml", strBytes "<p>x</p>", false⟩]⟩

/-- The same publication with the package document under `OEBPS/`. -/
def zSub : Zip := ⟨[
  ⟨"mimetype", strBytes "application/epub+zip", true⟩,
  ⟨"META-INF/container.xml", strBytes containerSubXmlDoc, false⟩,
  ⟨"OEBPS/content.opf", strBytes opfXmlDoc, false⟩,
  ⟨"OEBPS/nav.xhtml", strBytes navXmlDoc, false⟩,
  ⟨"OEBPS/c1.xhtml", strBytes "<p>x</p>", false⟩]⟩

/-- An archive whose package document is ISO-8859-1 encoded (and
declares it), hence parses as XML but does not decode as UTF-8. -/
def zLatin : Zip := ⟨[
  ⟨"mimetype", strBytes "application/epub+zip", true⟩,
  ⟨"META-INF/container.xml", strBytes containerXmlDoc, false⟩,
  ⟨"content.opf",
    strBytes "<?xml version=\"1.0\" encoding=\"ISO-8859-1\"?><package xmlns=\"http://www.idpf.org/2007/opf\" version=\"3.0\"><metadata xmlns:dc=\"http://purl.org/dc/elements/1.1/\"><dc:title>"
      ++ [233]
      ++ strBytes "</dc:title></metadata><manifest></manifest><spine></spine></package>", false⟩]⟩

/-- An archive with two entries of the same name and different bytes. -/
def zDup : Zip := ⟨[
  ⟨"META-INF/container.xml", strBytes containerXmlDoc, false⟩,
  ⟨"content.opf", strBytes opfPlainXmlDoc, false⟩,
  ⟨"a.txt", [88], true⟩,
  ⟨"a.txt", [89], true⟩]⟩

/-- The output archive of an outcome (empty when nothing was written). -/
def outOf : Outcome → Zip
  | .ok z => z
  | .err _ => ⟨[]⟩
  | .errMid _ w => w

/-- Did the conversion produce a complete output archive? -/
def isOkOut : Outcome → Bool
  | .ok _ => true
  | _ => false

/-- Did the conversion abort while the output archive was being
written? -/
def isErrMidOut : Outcome → Bool
  | .errMid _ _ => true
  | _ => false

/-- The number of entries with a given name. -/
def countName (z : Zip) (n : String) : Nat :=
  z.entries.countP (fun e => e.name = n)

/-- The entry names of an archive, in order. -/
def entryNames (z : Zip) : List String := z.entries.map ZEntry.name

/-- The specification's error taxonomy (spec section 7).  This is the
refinement map from the concrete Python exceptions `convert` raises to
the spec's named error kinds, following the spec's words:
`MalformedContainerError` covers a missing, unparsable or
root-file-less container descriptor; `EntryNotFoundError` a required
named entry that is absent; `EncodingError` a text entry that cannot
be decoded; `XmlParseError` any other ill-formed document. -/
inductive SpecErrKind : Type where
  | malformedContainer
  | entryNotFound
  | encoding
  | xmlParse
  | other
  deriving DecidableEq

/-- Classify a concrete raised exception under the spec's taxonomy. -/
def specErrorKind : PyErr → SpecErrKind
  | .keyErr n => if n = "META-INF/container.xml" then .malformedContainer else .entryNotFound
  | .parseFailed which => if which = "container" then .malformedContainer else .xmlParse
  | .indexErr => .malformedContainer
  | .typeErr => .other
  | .decodeErr => .encoding

/-! ## Properties of the play-order numbering -/

mutual
/-- After walking a forest from counter `c`, the counter is `c` plus the
total number of items walked. -/
theorem buildNcxPoints_counter : ∀ (f : NavForest) (c : Nat), (buildNcxPoints f c).2 = c + countForest f
  | .nil, c => by simp [buildNcxPoints, countForest]
  | .cons i r, c => by
    simp only [buildNcxPoints, countForest]
    rw [buildNcxPoint_counter i c, buildNcxPoints_counter r (c + countItem i)]
    omega
/-- After walking one item's subtree from counter `c`, the counter is
`c` plus the subtree's size. -/
theorem buildNcxPoint_counter : ∀ (i : NavItem) (c : Nat), (buildNcxPoint i c).2 = c + countItem i
  | .mk t s ch, c => by
    simp only [buildNcxPoint, countItem]
    rw [buildNcxPoints_counter ch (c + 1)]
    omega
end

mutual
/-- The play orders assigned across a forest from counter `c` are
exactly the consecutive block starting at `c`. -/
theorem playOrders_eq_range : ∀ (f : NavForest) (c : Nat), playOrders f c = List.range' c (countForest f)
  | .nil, _ => by simp [playOrders, countForest]
  | .cons i r, c => by
    simp only [playOrders, countForest]
    rw [playOrdersItem_eq_range i c, playOrders_eq_range r (c + countItem i),
      List.range'_append_1 c (countItem i) (countForest r), Nat.add_comm (countForest r) (countItem i)]
/-- The play orders assigned in one item's subtree from counter `c` are
the consecutive block starting at `c`. -/
theorem playOrdersItem_eq_range : ∀ (i : NavItem) (c : Nat), playOrdersItem i c = List.range' c (countItem i)
  | .mk t s ch, c => by
    simp only [playOrdersItem, countItem]
    rw [playOrders_eq_range ch (c + 1)]
    rw [Nat.add_comm 1 (countForest ch), List.range'_succ]
end

/-! ## Properties of prefixes and occurrences -/

/-- A list is a prefix of itself followed by anything. -/
theorem isPrefixOf_append_self : ∀ (pat post : List Char), pat.isPrefixOf (pat ++ post) = true
  | [], _ => by simp [List.isPrefixOf]
  | a :: pat, post => by
    simp only [List.cons_append, List.isPrefixOf_cons₂_self]
    exact isPrefixOf_append_self pat post

/-- Boolean prefix test as an equation. -/
theorem isPrefixOf_iff_exists : ∀ (pat l : List Char), pat.isPrefixOf l = true ↔ ∃ t, l = pat ++ t := by
  intro pat
  induction pat with
  | nil => intro l; simp [List.isPrefixOf]
  | cons a pat ih =>
    intro l
    cases l with
    | nil =>
      simp only [List.isPrefixOf]
      constructor
      · intro h; cases h
      · rintro ⟨t, ht⟩; cases ht
    | cons b l =>
      simp only [List.isPrefixOf, Bool.and_eq_true, beq_iff_eq, ih l]
      constructor
      · rintro ⟨rfl, t, rfl⟩; exact ⟨t, rfl⟩
      · rintro ⟨t, ht⟩
        injection ht with h1 h2
        exact ⟨h1.symm, t, h2⟩

/-- `occursIn` as an explicit decomposition. -/
theorem occursIn_iff_exists : ∀ (pat l : List Char), occursIn pat l = true ↔ ∃ u w, l = u ++ pat ++ w := by
  intro pat l
  induction l with
  | nil =>
    simp only [occursIn, List.isEmpty_iff]
    constructor
    · rintro rfl; exact ⟨[], [], rfl⟩
    · rintro ⟨u, w, h⟩
      rcases List.append_eq_nil.mp h.symm with ⟨h1, h2⟩
      exact (List.append_eq_nil.mp h1).2
  | cons a l ih =>
    simp only [occursIn, Bool.or_eq_true, isPrefixOf_iff_exists, ih]
    constructor
    · rintro (⟨t, ht⟩ | ⟨u, w, hw⟩)
      · exact ⟨[], t, by simp [ht]⟩
      · exact ⟨a :: u, w, by simp [hw]⟩
    · rintro ⟨u, w, hw⟩
      cases u with
      | nil => exact Or.inl ⟨w, by simpa using hw⟩
      | cons b u =>
        injection hw with h1 h2
        exact Or.inr ⟨u, w, h2⟩

/-- An occurrence survives prepending. -/
theorem occursIn_append_left (pat X u : List Char) (h : occursIn pat X = true) :
    occursIn pat (u ++ X) = true := by
  rcases (occursIn_iff_exists pat X).mp h with ⟨a, b, rfl⟩
  exact (occursIn_iff_exists pat _).mpr ⟨u ++ a, b, by simp⟩

/-- An occurrence survives appending. -/
theorem occursIn_append_right (pat X v : List Char) (h : occursIn pat X = true) :
    occursIn pat (X ++ v) = true := by
  rcases (occursIn_iff_exists pat X).mp h with ⟨a, b, rfl⟩
  exact (occursIn_iff_exists pat _).mpr ⟨a, b ++ v, by simp⟩

/-- No occurrence in a list, no occurrence in its tail. -/
theorem occursIn_of_cons_false (pat : List Char) (a : Char) (l : List Char)
    (h : occursIn pat (a :: l) = false) : occursIn pat l = false := by
  by_contra hne
  have := occursIn_append_left pat l [a] (by revert hne; cases occursIn pat l <;> simp)
  simp only [List.cons_append, List.nil_append] at this
  rw [this] at h
  cases h

/-- A prefix occurrence is an occurrence. -/
theorem occursIn_of_isPrefixOf (pat l : List Char) (h : pat.isPrefixOf l = true) :
    occursIn pat l = true := by
  rcases (isPrefixOf_iff_exists pat l).mp h with ⟨t, rfl⟩
  exact (occursIn_iff_exists pat _).mpr ⟨[], t, rfl⟩

/-- The key localisation: if `pat` does not occur in `B ++ pat.dropLast`
with `B` nonempty, then `pat` is not a prefix of `B ++ pat ++ R` (any
such prefix occurrence would lie strictly before the visible copy of
`pat`). -/
theorem not_isPrefixOf_of_no_early (pat B R : List Char) (hp : pat ≠ []) (hb : B ≠ [])
    (h : occursIn pat (B ++ pat.dropLast) = false) :
    pat.isPrefixOf (B ++ pat ++ R) = false := by
  by_contra hne
  have hpre : pat.isPrefixOf (B ++ pat ++ R) = true := by
    revert hne; cases pat.isPrefixOf (B ++ pat ++ R) <;> simp
  rcases (isPrefixOf_iff_exists _ _).mp hpre with ⟨t, ht⟩
  have hlen : pat.length ≤ (B ++ pat.dropLast).length := by
    have h1 : 1 ≤ B.length := by
      cases B with
      | nil => exact absurd rfl hb
      | cons x xs => simp
    have h2 : pat.dropLast.length = pat.length - 1 := List.length_dropLast pat
    have h3 : 1 ≤ pat.length := by
      cases pat with
      | nil => exact absurd rfl hp
      | cons x xs => simp
    simp only [List.length_append, h2]
    omega
  have hdecomp : B ++ pat ++ R = (B ++ pat.dropLast) ++ (pat.getLast hp :: R) := by
    conv_lhs => rw [← List.dropLast_append_getLast hp]
    simp
  have htake : (B ++ pat ++ R).take pat.length = pat := by
    rw [ht, List.take_append_of_le_length (by simp)]
    simp
  have htake2 : (B ++ pat ++ R).take pat.length = (B ++ pat.dropLast).take pat.length := by
    rw [hdecomp, List.take_append_of_le_length hlen]
  have : pat.isPrefixOf (B ++ pat.dropLast) = true := by
    rw [isPrefixOf_iff_exists]
    refine ⟨(B ++ pat.dropLast).drop pat.length, ?_⟩
    conv_lhs => rw [← List.take_append_drop pat.length (B ++ pat.dropLast)]
    rw [← htake2, htake]
  rw [occursIn_of_isPrefixOf _ _ this] at h
  cases h

/-! ## Scanner unfolding principles -/

/-- The scan result does not depend on the fuel, once the fuel covers
the input length. -/
theorem scanAux_congr (m : List Char → Option (List Char × List Char)) (hm : Shrinking m) :
    ∀ (f g : Nat) (l : List Char), l.length ≤ f → l.length ≤ g → scanAux m f l = scanAux m g l
  | 0, g, l, hf, _ => by
    have : l = [] := List.length_eq_zero.mp (Nat.le_zero.mp hf)
    subst this
    cases g <;> rfl
  | f + 1, g, [], _, _ => by cases g <;> rfl
  | f + 1, 0, c :: cs, _, hg => by simp at hg
  | f + 1, g + 1, c :: cs, hf, hg => by
    cases hmv : m (c :: cs) with
    | none =>
      simp only [scanAux, hmv]
      have h1 : cs.length ≤ f := by simp at hf; omega
      have h2 : cs.length ≤ g := by simp at hg; omega
      rw [scanAux_congr m hm f g cs h1 h2]
    | some rt =>
      obtain ⟨r, t⟩ := rt
      simp only [scanAux, hmv]
      have hlt := hm _ _ _ hmv
      have h1 : t.length ≤ f := by simp at hlt hf; omega
      have h2 : t.length ≤ g := by simp at hlt hg; omega
      rw [scanAux_congr m hm f g t h1 h2]

/-- A successful match at the head of the input is replaced, and the
scan continues after it. -/
theorem scanR_matched (m : List Char → Option (List Char × List Char)) (hm : Shrinking m)
    (l r t : List Char) (hmv : m l = some (r, t)) : scanR m l = r ++ scanR m t := by
  cases l with
  | nil =>
    have := hm _ _ _ hmv
    simp at this
  | cons c cs =>
    have hlt := hm _ _ _ hmv
    simp only [scanR, List.length_cons, scanAux, hmv]
    rw [scanAux_congr m hm cs.length t.length t (by simp at hlt; omega) (Nat.le_refl _)]

/-- A failed match copies one character. -/
theorem scanR_unmatched (m : List Char → Option (List Char × List Char))
    (c : Char) (cs : List Char) (hmv : m (c :: cs) = none) :
    scanR m (c :: cs) = c :: scanR m cs := by
  simp only [scanR, List.length_cons, scanAux, hmv]

/-- A region in which the matcher fails at every position is copied
verbatim. -/
theorem scanR_id (m : List Char → Option (List Char × List Char)) :
    ∀ (l : List Char), (∀ u B, l = u ++ B → B ≠ [] → m B = none) → scanR m l = l := by
  intro l
  induction l with
  | nil => intro _; rfl
  | cons c cs ih =>
    intro h
    rw [scanR_unmatched m c cs (h [] (c :: cs) rfl (by simp))]
    rw [ih (fun u B hB hne => h (c :: u) B (by simp [hB]) hne)]

/-- A region in which the matcher fails at every position (even with
the remainder attached) is copied verbatim, and scanning resumes on the
remainder. -/
theorem scanR_append (m : List Char → Option (List Char × List Char)) :
    ∀ (A R : List Char), (∀ u B, A = u ++ B → B ≠ [] → m (B ++ R) = none) →
      scanR m (A ++ R) = A ++ scanR m R := by
  intro A
  induction A with
  | nil => intro R _; rfl
  | cons c A' ih =>
    intro R h
    have h0 : m (c :: (A' ++ R)) = none := by
      have := h [] (c :: A') rfl (by simp)
      simpa using this
    simp only [List.cons_append]
    rw [scanR_unmatched m c (A' ++ R) h0]
    rw [ih R (fun u B hB hne => h (c :: u) B (by simp [hB]) hne)]

/-! ## Matcher facts -/

/-- Dropping a prefix by a predicate never lengthens a list. -/
theorem length_dropWhile_le (p : Char → Bool) : ∀ (l : List Char), (l.dropWhile p).length ≤ l.length
  | [] => Nat.le_refl _
  | c :: cs => by
    rw [List.dropWhile_cons]
    split
    · exact Nat.le_trans (length_dropWhile_le p cs) (by simp)
    · simp

/-- `str.replace` matching strictly consumes input. -/
theorem mRepl_shrinking (pat rep : List Char) : Shrinking (mRepl pat rep) := by
  intro l r t h
  simp only [mRepl] at h
  split at h
  · cases h
  next hne =>
    split at h
    next hpre =>
      rcases (isPrefixOf_iff_exists pat l).mp hpre with ⟨t', rfl⟩
      rw [List.drop_left] at h
      simp only [Option.some.injEq, Prod.mk.injEq] at h
      obtain ⟨-, rfl⟩ := h
      have hp : pat ≠ [] := by
        intro hc
        exact hne (by simp [hc])
      have : 0 < pat.length := List.length_pos.mpr hp
      simp only [List.length_append]
      omega
    · cases h

/-- The navigation-properties matcher strictly consumes input. -/
theorem mNavProps_shrinking : Shrinking mNavProps := by
  intro l r t h
  simp only [mNavProps] at h
  split at h
  · split at h
    next tail heq =>
      split at h
      · simp only [Option.some.injEq, Prod.mk.injEq] at h
        obtain ⟨-, rfl⟩ := h
        have h1 : ('"' :: tail).length ≤ ((l.dropWhile Char.isWhitespace).drop propsLit.length).length := by
          rw [← heq]
          exact length_dropWhile_le _ _
        have h3 : (l.dropWhile Char.isWhitespace).length ≤ l.length := length_dropWhile_le _ _
        simp only [List.length_cons, List.length_drop] at h1
        omega
      · cases h
    next => cases h
  · cases h

/-- The spine matcher strictly consumes input. -/
theorem mSpine_shrinking : Shrinking mSpine := by
  intro l r t h
  simp only [mSpine] at h
  split at h
  next hpre =>
    split at h
    next tail heq =>
      simp only [Option.some.injEq, Prod.mk.injEq] at h
      obtain ⟨-, rfl⟩ := h
      have h1 : ('>' :: tail).length ≤ (l.drop spineLit.length).length := by
        rw [← heq]
        exact length_dropWhile_le _ _
      rcases (isPrefixOf_iff_exists spineLit l).mp hpre with ⟨t', rfl⟩
      have : 0 < spineLit.length := by decide
      simp only [List.length_cons, List.length_drop, List.length_append] at h1 ⊢
      omega
    next => cases h
  · cases h

/-- Dropping by a predicate skips a region satisfying it. -/
theorem dropWhile_append_of_all (p : Char → Bool) :
    ∀ (u l : List Char), (∀ c ∈ u, p c = true) → (u ++ l).dropWhile p = l.dropWhile p
  | [], l, _ => rfl
  | c :: u, l, h => by
    simp only [List.cons_append, List.dropWhile_cons, h c (by simp)]
    exact dropWhile_append_of_all p u l (fun d hd => h d (by simp [hd]))

/-- Dropping by a predicate stops at a failing head. -/
theorem dropWhile_cons_neg (p : Char → Bool) (c : Char) (l : List Char) (h : p c = false) :
    (c :: l).dropWhile p = c :: l := by
  simp [List.dropWhile_cons, h]

/-- Taking and dropping by a predicate stop exactly at the first
failing element. -/
theorem takeWhile_append_stop (p : Char → Bool) :
    ∀ (v : List Char), (∀ c ∈ v, p c = true) → ∀ (x : Char), p x = false → ∀ (post : List Char),
      (v ++ x :: post).takeWhile p = v ∧ (v ++ x :: post).dropWhile p = x :: post
  | [], _, x, hx, post => by
    constructor
    · simp [List.takeWhile_cons, hx]
    · simp [List.dropWhile_cons, hx]
  | c :: v, h, x, hx, post => by
    have ih := takeWhile_append_stop p v (fun d hd => h d (by simp [hd])) x hx post
    constructor
    · simp [List.takeWhile_cons, h c (by simp), ih.1]
    · simp only [List.cons_append, List.dropWhile_cons, h c (by simp)]
      simp [ih.2]

/-- `str.replace` matches at a visible copy of the pattern. -/
theorem mRepl_here (pat rep post : List Char) (hp : pat ≠ []) :
    mRepl pat rep (pat ++ post) = some (rep, post) := by
  have h1 : pat.isEmpty = false := by
    rw [List.isEmpty_eq_false]
    exact hp
  simp [mRepl, h1, isPrefixOf_append_self, List.drop_left]

/-- `str.replace` cannot match where the pattern does not occur. -/
theorem mRepl_none_of_not_occurs (pat rep B : List Char) (h : occursIn pat B = false) :
    mRepl pat rep B = none := by
  simp only [mRepl]
  split
  · rfl
  · split
    next hpre =>
      rcases (isPrefixOf_iff_exists pat B).mp hpre with ⟨t, rfl⟩
      rw [occursIn_of_isPrefixOf pat _ (isPrefixOf_append_self pat t)] at h
      cases h
    · rfl

/-- `str.replace` cannot match strictly before a visible copy of the
pattern when no occurrence starts earlier. -/
theorem mRepl_none_of_no_early (pat rep B R : List Char) (hp : pat ≠ []) (hb : B ≠ [])
    (h : occursIn pat (B ++ pat.dropLast) = false) :
    mRepl pat rep (B ++ pat ++ R) = none := by
  simp only [mRepl]
  split
  · rfl
  · rw [not_isPrefixOf_of_no_early pat B R hp hb h]
    simp

/-- A successful navigation-properties match exhibits the anchor
literal. -/
theorem mNavProps_some_occurs (l : List Char) (rt : List Char × List Char)
    (h : mNavProps l = some rt) : occursIn propsLit l = true := by
  simp only [mNavProps] at h
  split at h
  next hpre =>
    rcases (isPrefixOf_iff_exists _ _).mp hpre with ⟨t, ht⟩
    have hl : l = l.takeWhile Char.isWhitespace ++ (propsLit ++ t) := by
      rw [← ht, List.takeWhile_append_dropWhile]
    rw [hl]
    exact occursIn_append_left _ _ _ (occursIn_of_isPrefixOf _ _ (isPrefixOf_append_self _ _))
  · cases h

/-- The navigation-properties matcher cannot match where its anchor
literal does not occur. -/
theorem mNavProps_none_of_not_occurs (B : List Char) (h : occursIn propsLit B = false) :
    mNavProps B = none := by
  cases hm : mNavProps B with
  | none => rfl
  | some rt =>
    rw [mNavProps_some_occurs B rt hm] at h
    cases h

/-- A whitespace head is skipped by the navigation-properties matcher. -/
theorem mNavProps_cons_ws (c : Char) (l : List Char) (h : c.isWhitespace = true) :
    mNavProps (c :: l) = mNavProps l := by
  simp [mNavProps, List.dropWhile_cons, h]

/-- A successful spine match exhibits `<spine`. -/
theorem mSpine_some_occurs (l : List Char) (rt : List Char × List Char)
    (h : mSpine l = some rt) : occursIn spineLit l = true := by
  simp only [mSpine] at h
  split at h
  next hpre => exact occursIn_of_isPrefixOf _ _ hpre
  · cases h

/-- The spine matcher cannot match where `<spine` does not occur. -/
theorem mSpine_none_of_not_occurs (B : List Char) (h : occursIn spineLit B = false) :
    mSpine B = none := by
  cases hm : mSpine B with
  | none => rfl
  | some rt =>
    rw [mSpine_some_occurs B rt hm] at h
    cases h

/-- The spine matcher cannot match strictly before a visible `<spine`
when no occurrence starts earlier. -/
theorem mSpine_none_of_no_early (B R : List Char) (hb : B ≠ [])
    (h : occursIn spineLit (B ++ spineLit.dropLast) = false) :
    mSpine (B ++ spineLit ++ R) = none := by
  simp only [mSpine]
  rw [not_isPrefixOf_of_no_early spineLit B R (by decide) hb h]
  simp

/-- No occurrence in a list, no occurrence in any suffix of it. -/
theorem occursIn_suffix_false (pat u B : List Char) (h : occursIn pat (u ++ B) = false) :
    occursIn pat B = false := by
  cases hB : occursIn pat B with
  | false => rfl
  | true =>
    rw [occursIn_append_left pat B u hB] at h
    cases h

/-- The last element of a list seen through a nonempty suffix. -/
theorem getLast?_through_suffix (u B : List Char) (hb : B ≠ []) :
    (u ++ B).getLast? = B.getLast? :=
  List.getLast?_append_of_ne_nil u hb

/-- The navigation-properties matcher matches at a visible attribute:
whitespace, the anchor literal, a quote-free value containing `nav`,
the closing quote. -/
theorem mNavProps_here (ws v post : List Char)
    (hws : ∀ c ∈ ws, c.isWhitespace = true)
    (hv : ∀ c ∈ v, ¬(c = '"')) (hnav : occursIn "nav".data v = true) :
    mNavProps (ws ++ (propsLit ++ (v ++ '"' :: post))) = some ([], post) := by
  have hd1 : (ws ++ (propsLit ++ (v ++ '"' :: post))).dropWhile Char.isWhitespace
      = propsLit ++ (v ++ '"' :: post) := by
    rw [dropWhile_append_of_all Char.isWhitespace ws _ hws]
    rw [show propsLit ++ (v ++ '"' :: post) = 'p' :: ("roperties=\"".data ++ (v ++ '"' :: post)) from rfl]
    exact dropWhile_cons_neg _ _ _ (by decide)
  have hstops := takeWhile_append_stop (fun c => decide (c ≠ '"')) v
      (by intro c hc; simpa using hv c hc) '"' (by simp) post
  simp only [mNavProps, hd1, isPrefixOf_append_self, List.drop_left, hstops.1, hstops.2,
    hnav, if_true]

/-- In a region that ends with a non-whitespace character, contains no
anchor-literal occurrence up to the visible one, and is followed by the
whitespace run of the visible attribute, the navigation-properties
matcher fails. -/
theorem mNavProps_none_region :
    ∀ (A : List Char), A ≠ [] →
      (∀ c, A.getLast? = some c → c.isWhitespace = false) →
      ∀ (ws R : List Char), (∀ c ∈ ws, c.isWhitespace = true) →
      occursIn propsLit (A ++ (ws ++ propsLit.dropLast)) = false →
      mNavProps (A ++ (ws ++ (propsLit ++ R))) = none
  | [], h, _, _, _, _, _ => absurd rfl h
  | a :: A', _, hlast, ws, R, hws, hocc => by
    cases ha : a.isWhitespace with
    | true =>
      cases A' with
      | nil =>
        have hl := hlast a (by simp)
        rw [hl] at ha
        cases ha
      | cons b B' =>
        rw [show ((a :: b :: B') ++ (ws ++ (propsLit ++ R))) = a :: ((b :: B') ++ (ws ++ (propsLit ++ R))) from rfl]
        rw [mNavProps_cons_ws a _ ha]
        apply mNavProps_none_region (b :: B') (by simp) _ ws R hws
        · exact occursIn_of_cons_false _ _ _ hocc
        · intro c hc
          apply hlast c
          rw [List.getLast?_cons_cons]
          exact hc
    | false =>
      have hocc2 : occursIn propsLit (((a :: A') ++ ws) ++ propsLit.dropLast) = false := by
        rw [List.append_assoc]
        exact hocc
      have hpre : propsLit.isPrefixOf (((a :: A') ++ ws) ++ propsLit ++ R) = false :=
        not_isPrefixOf_of_no_early propsLit ((a :: A') ++ ws) R (by decide) (by simp) hocc2
      have hpre2 : propsLit.isPrefixOf (a :: (A' ++ (ws ++ (propsLit ++ R)))) = false := by
        rw [show a :: (A' ++ (ws ++ (propsLit ++ R))) = ((a :: A') ++ ws) ++ propsLit ++ R by
          simp [List.append_assoc]]
        exact hpre
      have hd : (a :: (A' ++ (ws ++ (propsLit ++ R)))).dropWhile Char.isWhitespace
          = a :: (A' ++ (ws ++ (propsLit ++ R))) := dropWhile_cons_neg _ _ _ ha
      rw [show (a :: A') ++ (ws ++ (propsLit ++ R)) = a :: (A' ++ (ws ++ (propsLit ++ R))) from rfl]
      simp only [mNavProps, hd, hpre2]
      simp

/-- The spine matcher matches at a visible `<spine …>` tag whose
attribute region contains no `>`. -/
theorem mSpine_here (sp post : List Char) (hsp : ∀ c ∈ sp, ¬(c = '>')) :
    mSpine (spineLit ++ (sp ++ '>' :: post)) = some (spineLit ++ sp ++ tocAttrLit ++ ['>'], post) := by
  have hstops := takeWhile_append_stop (fun c => decide (c ≠ '>')) sp
      (by intro c hc; simpa using hsp c hc) '>' (by simp) post
  simp only [mSpine, isPrefixOf_append_self, List.drop_left, hstops.1, hstops.2, if_true]

/-! ## The three rewrites on structured package text -/

/-- `str.replace` on a text with a single visible occurrence: the copy
is replaced, everything else is kept byte for byte. -/
theorem replaceAll_single (pat rep A post : List Char) (hp : pat ≠ [])
    (h1 : occursIn pat (A ++ pat.dropLast) = false)
    (h2 : occursIn pat post = false) :
    replaceAll pat rep (A ++ (pat ++ post)) = A ++ (rep ++ post) := by
  unfold replaceAll
  rw [scanR_append (mRepl pat rep) A (pat ++ post) ?side]
  case side =>
    intro u B hB hne
    rw [show B ++ (pat ++ post) = B ++ pat ++ post by simp [List.append_assoc]]
    apply mRepl_none_of_no_early pat rep B post hp hne
    apply occursIn_suffix_false pat u
    rw [show u ++ (B ++ pat.dropLast) = (u ++ B) ++ pat.dropLast by simp [List.append_assoc]]
    rw [← hB]
    exact h1
  rw [scanR_matched (mRepl pat rep) (mRepl_shrinking pat rep) (pat ++ post) rep post
    (mRepl_here pat rep post hp)]
  rw [scanR_id (mRepl pat rep) post ?side2]
  case side2 =>
    intro u B hB hne
    apply mRepl_none_of_not_occurs
    apply occursIn_suffix_false pat u
    rw [← hB]
    exact h2

/-- `str.replace` on a text without the pattern is the identity. -/
theorem replaceAll_id (pat rep l : List Char) (h : occursIn pat l = false) :
    replaceAll pat rep l = l := by
  unfold replaceAll
  apply scanR_id
  intro u B hB hne
  apply mRepl_none_of_not_occurs
  apply occursIn_suffix_false pat u
  rw [← hB]
  exact h

/-- The navigation-properties rewrite on a text with a single visible
attribute: the whole attribute together with its preceding whitespace
run is deleted, everything else is kept byte for byte. -/
theorem subNavProps_single (A ws v post : List Char)
    (hA : ∀ c, A.getLast? = some c → c.isWhitespace = false)
    (hws : ∀ c ∈ ws, c.isWhitespace = true)
    (hv : ∀ c ∈ v, ¬(c = '"')) (hnav : occursIn "nav".data v = true)
    (h1 : occursIn propsLit (A ++ (ws ++ propsLit.dropLast)) = false)
    (h2 : occursIn propsLit post = false) :
    subNavProps (A ++ (ws ++ (propsLit ++ (v ++ '"' :: post)))) = A ++ post := by
  unfold subNavProps
  rw [scanR_append mNavProps A (ws ++ (propsLit ++ (v ++ '"' :: post))) ?side]
  case side =>
    intro u B hB hne
    apply mNavProps_none_region B hne _ ws (v ++ '"' :: post) hws
    · apply occursIn_suffix_false propsLit u
      rw [show u ++ (B ++ (ws ++ propsLit.dropLast)) = (u ++ B) ++ (ws ++ propsLit.dropLast) by
        simp [List.append_assoc]]
      rw [← hB]
      exact h1
    · intro c hc
      apply hA c
      rw [hB, getLast?_through_suffix u B hne]
      exact hc
  rw [scanR_matched mNavProps mNavProps_shrinking _ [] post (mNavProps_here ws v post hws hv hnav)]
  rw [scanR_id mNavProps post ?side2]
  case side2 =>
    intro u B hB hne
    apply mNavProps_none_of_not_occurs
    apply occursIn_suffix_false propsLit u
    rw [← hB]
    exact h2
  simp

/-- The navigation-properties rewrite on a text without the anchor
literal is the identity. -/
theorem subNavProps_id (l : List Char) (h : occursIn propsLit l = false) :
    subNavProps l = l := by
  unfold subNavProps
  apply scanR_id
  intro u B hB hne
  apply mNavProps_none_of_not_occurs
  apply occursIn_suffix_false propsLit u
  rw [← hB]
  exact h

/-- The spine rewrite on a text with a single visible spine tag: the
tag gains ` toc="ncx"`, everything else is kept byte for byte. -/
theorem subSpine_single (A sp post : List Char)
    (h1 : occursIn spineLit (A ++ spineLit.dropLast) = false)
    (hsp : ∀ c ∈ sp, ¬(c = '>'))
    (h2 : occursIn spineLit post = false) :
    subSpine (A ++ (spineLit ++ (sp ++ '>' :: post)))
      = A ++ (spineLit ++ (sp ++ (tocAttrLit ++ ('>' :: post)))) := by
  unfold subSpine
  rw [scanR_append mSpine A (spineLit ++ (sp ++ '>' :: post)) ?side]
  case side =>
    intro u B hB hne
    rw [show B ++ (spineLit ++ (sp ++ '>' :: post)) = B ++ spineLit ++ (sp ++ '>' :: post) by
      simp [List.append_assoc]]
    apply mSpine_none_of_no_early B (sp ++ '>' :: post) hne
    apply occursIn_suffix_false spineLit u
    rw [show u ++ (B ++ spineLit.dropLast) = (u ++ B) ++ spineLit.dropLast by
      simp [List.append_assoc]]
    rw [← hB]
    exact h1
  rw [scanR_matched mSpine mSpine_shrinking _ _ post (mSpine_here sp post hsp)]
  rw [scanR_id mSpine post ?side2]
  case side2 =>
    intro u B hB hne
    apply mSpine_none_of_not_occurs
    apply occursIn_suffix_false spineLit u
    rw [← hB]
    exact h2
  simp [List.append_assoc]

/-- C5: on a package text with one version declaration and one
navigation-marked properties attribute, and an existing `toc.ncx`
reference, the patcher replaces `version="3.0"` by `version="2.0"`
textually, removes the whole `properties` attribute together with its
preceding whitespace run (not just the token), performs no insertion,
and keeps every other byte of the text unchanged (`A`, `B` and `C` are
returned verbatim, preserving formatting, whitespace and comments). -/
theorem c5_patch_text (A B ws v C : List Char)
    (h1v : occursIn ver3Lit (A ++ ver3Lit.dropLast) = false)
    (h2v : occursIn ver3Lit (B ++ (ws ++ (propsLit ++ (v ++ '"' :: C)))) = false)
    (hA : ∀ c, (A ++ (ver2Lit ++ B)).getLast? = some c → c.isWhitespace = false)
    (hws : ∀ c ∈ ws, c.isWhitespace = true)
    (hv : ∀ c ∈ v, ¬(c = '"'))
    (hnav : occursIn "nav".data v = true)
    (h1p : occursIn propsLit ((A ++ (ver2Lit ++ B)) ++ (ws ++ propsLit.dropLast)) = false)
    (h2p : occursIn propsLit C = false)
    (htoc : occursIn tocNcxLit (A ++ (ver2Lit ++ (B ++ C))) = true) :
    patchOpf (A ++ (ver3Lit ++ (B ++ (ws ++ (propsLit ++ (v ++ '"' :: C))))))
      = A ++ (ver2Lit ++ (B ++ C)) := by
  have hc1 : replaceAll ver3Lit ver2Lit (A ++ (ver3Lit ++ (B ++ (ws ++ (propsLit ++ (v ++ '"' :: C))))))
      = A ++ (ver2Lit ++ (B ++ (ws ++ (propsLit ++ (v ++ '"' :: C))))) :=
    replaceAll_single ver3Lit ver2Lit A _ (by decide) h1v h2v
  have hc2 : subNavProps (A ++ (ver2Lit ++ (B ++ (ws ++ (propsLit ++ (v ++ '"' :: C))))))
      = (A ++ (ver2Lit ++ B)) ++ C := by
    rw [show A ++ (ver2Lit ++ (B ++ (ws ++ (propsLit ++ (v ++ '"' :: C)))))
        = (A ++ (ver2Lit ++ B)) ++ (ws ++ (propsLit ++ (v ++ '"' :: C))) by simp [List.append_assoc]]
    exact subNavProps_single (A ++ (ver2Lit ++ B)) ws v C hA hws hv hnav h1p h2p
  have htoc2 : occursIn tocNcxLit ((A ++ (ver2Lit ++ B)) ++ C) = true := by
    rw [show (A ++ (ver2Lit ++ B)) ++ C = A ++ (ver2Lit ++ (B ++ C)) by simp [List.append_assoc]]
    exact htoc
  unfold patchOpf
  simp only [hc1, hc2, htoc2, if_true]
  simp [List.append_assoc]

/-- Witness for C5: the hypotheses hold on a concrete package text and
the patcher behaves as stated on it. -/
theorem c5_patch_text_witness :
    patchOpf (wOpfA ++ (ver3Lit ++ (wOpfB ++ ([' '] ++ (propsLit ++ ("nav".data ++ '"' :: wOpfC))))))
      = wOpfA ++ (ver2Lit ++ (wOpfB ++ wOpfC)) :=
  c5_patch_text wOpfA wOpfB [' '] "nav".data wOpfC
    (by decide) (by decide) (by decide) (by decide) (by decide) (by decide)
    (by decide) (by decide) (by decide)

/-- C6: when the (version-substituted, properties-stripped) package
text contains no `toc.ncx`, the patcher inserts the NCX manifest item
immediately before the manifest's closing tag and adds ` toc="ncx"` to
the spine element's opening tag, leaving all other bytes unchanged;
and when the substituted text does contain `toc.ncx`, no manifest or
spine insertion occurs (the substituted text is returned as is). -/
theorem c6_manifest_spine_insertion :
    (∀ (A B ws v C D sp E : List Char),
      occursIn ver3Lit (A ++ ver3Lit.dropLast) = false →
      occursIn ver3Lit (B ++ (ws ++ (propsLit ++ (v ++ '"' :: (C ++ (manifestEndLit ++ (D ++ (spineLit ++ (sp ++ '>' :: E))))))))) = false →
      (∀ c, (A ++ (ver2Lit ++ B)).getLast? = some c → c.isWhitespace = false) →
      (∀ c ∈ ws, c.isWhitespace = true) →
      (∀ c ∈ v, ¬(c = '"')) →
      occursIn "nav".data v = true →
      occursIn propsLit ((A ++ (ver2Lit ++ B)) ++ (ws ++ propsLit.dropLast)) = false →
      occursIn propsLit (C ++ (manifestEndLit ++ (D ++ (spineLit ++ (sp ++ '>' :: E))))) = false →
      occursIn tocNcxLit (A ++ (ver2Lit ++ (B ++ (C ++ (manifestEndLit ++ (D ++ (spineLit ++ (sp ++ '>' :: E)))))))) = false →
      occursIn manifestEndLit ((A ++ (ver2Lit ++ (B ++ C))) ++ manifestEndLit.dropLast) = false →
      occursIn manifestEndLit (D ++ (spineLit ++ (sp ++ '>' :: E))) = false →
      occursIn spineLit ((A ++ (ver2Lit ++ (B ++ (C ++ (itemNcxLit ++ ('\n' :: (manifestEndLit ++ D))))))) ++ spineLit.dropLast) = false →
      (∀ c ∈ sp, ¬(c = '>')) →
      occursIn spineLit E = false →
      patchOpf (A ++ (ver3Lit ++ (B ++ (ws ++ (propsLit ++ (v ++ '"' :: (C ++ (manifestEndLit ++ (D ++ (spineLit ++ (sp ++ '>' :: E)))))))))))
        = A ++ (ver2Lit ++ (B ++ (C ++ (itemNcxLit ++ ('\n' :: (manifestEndLit ++ (D ++ (spineLit ++ (sp ++ (tocAttrLit ++ ('>' :: E)))))))))))) ∧
    (∀ l, occursIn tocNcxLit (subNavProps (replaceAll ver3Lit ver2Lit l)) = true →
      patchOpf l = subNavProps (replaceAll ver3Lit ver2Lit l)) := by
  constructor
  · intro A B ws v C D sp E h1v h2v hA hws hv hnav h1p h2p htoc hm1 hm2 hs1 hsp hs2
    have hc1 : replaceAll ver3Lit ver2Lit
        (A ++ (ver3Lit ++ (B ++ (ws ++ (propsLit ++ (v ++ '"' :: (C ++ (manifestEndLit ++ (D ++ (spineLit ++ (sp ++ '>' :: E)))))))))))
        = A ++ (ver2Lit ++ (B ++ (ws ++ (propsLit ++ (v ++ '"' :: (C ++ (manifestEndLit ++ (D ++ (spineLit ++ (sp ++ '>' :: E)))))))))) :=
      replaceAll_single ver3Lit ver2Lit A _ (by decide) h1v h2v
    have hc2 : subNavProps
        (A ++ (ver2Lit ++ (B ++ (ws ++ (propsLit ++ (v ++ '"' :: (C ++ (manifestEndLit ++ (D ++ (spineLit ++ (sp ++ '>' :: E)))))))))))
        = (A ++ (ver2Lit ++ B)) ++ (C ++ (manifestEndLit ++ (D ++ (spineLit ++ (sp ++ '>' :: E))))) := by
      rw [show A ++ (ver2Lit ++ (B ++ (ws ++ (propsLit ++ (v ++ '"' :: (C ++ (manifestEndLit ++ (D ++ (spineLit ++ (sp ++ '>' :: E))))))))))
          = (A ++ (ver2Lit ++ B)) ++ (ws ++ (propsLit ++ (v ++ '"' :: (C ++ (manifestEndLit ++ (D ++ (spineLit ++ (sp ++ '>' :: E))))))))
          by simp [List.append_assoc]]
      exact subNavProps_single (A ++ (ver2Lit ++ B)) ws v _ hA hws hv hnav h1p h2p
    have htoc2 : occursIn tocNcxLit
        ((A ++ (ver2Lit ++ B)) ++ (C ++ (manifestEndLit ++ (D ++ (spineLit ++ (sp ++ '>' :: E)))))) = false := by
      rw [show (A ++ (ver2Lit ++ B)) ++ (C ++ (manifestEndLit ++ (D ++ (spineLit ++ (sp ++ '>' :: E)))))
          = A ++ (ver2Lit ++ (B ++ (C ++ (manifestEndLit ++ (D ++ (spineLit ++ (sp ++ '>' :: E)))))))
          by simp [List.append_assoc]]
      exact htoc
    have hc3 : replaceAll manifestEndLit (itemNcxLit ++ '\n' :: manifestEndLit)
        ((A ++ (ver2Lit ++ B)) ++ (C ++ (manifestEndLit ++ (D ++ (spineLit ++ (sp ++ '>' :: E))))))
        = (A ++ (ver2Lit ++ (B ++ C))) ++ ((itemNcxLit ++ '\n' :: manifestEndLit) ++ (D ++ (spineLit ++ (sp ++ '>' :: E)))) := by
      rw [show (A ++ (ver2Lit ++ B)) ++ (C ++ (manifestEndLit ++ (D ++ (spineLit ++ (sp ++ '>' :: E)))))
          = (A ++ (ver2Lit ++ (B ++ C))) ++ (manifestEndLit ++ (D ++ (spineLit ++ (sp ++ '>' :: E))))
          by simp [List.append_assoc]]
      exact replaceAll_single manifestEndLit _ _ _ (by decide) hm1 hm2
    have hc4 : subSpine
        ((A ++ (ver2Lit ++ (B ++ C))) ++ ((itemNcxLit ++ '\n' :: manifestEndLit) ++ (D ++ (spineLit ++ (sp ++ '>' :: E)))))
        = (A ++ (ver2Lit ++ (B ++ (C ++ (itemNcxLit ++ ('\n' :: (manifestEndLit ++ D))))))) ++ (spineLit ++ (sp ++ (tocAttrLit ++ ('>' :: E)))) := by
      rw [show (A ++ (ver2Lit ++ (B ++ C))) ++ ((itemNcxLit ++ '\n' :: manifestEndLit) ++ (D ++ (spineLit ++ (sp ++ '>' :: E))))
          = (A ++ (ver2Lit ++ (B ++ (C ++ (itemNcxLit ++ ('\n' :: (manifestEndLit ++ D))))))) ++ (spineLit ++ (sp ++ '>' :: E))
          by simp [List.append_assoc]]
      exact subSpine_single _ sp E hs1 hsp hs2
    unfold patchOpf
    simp only [hc1, hc2, htoc2, hc3, hc4]
    simp [List.append_assoc]
  · intro l htoc
    unfold patchOpf
    simp only [htoc, if_true]

/-- Witness for C6: on a concrete package text without `toc.ncx` the
manifest item and the spine attribute are inserted as stated, and on a
concrete text already containing `toc.ncx` the substituted text is
returned unchanged. -/
theorem c6_manifest_spine_insertion_witness :
    (patchOpf (wOpfA ++ (ver3Lit ++ (wInsB ++ ([' '] ++ (propsLit ++ ("nav".data ++ '"' :: (wInsC ++ (manifestEndLit ++ ([] ++ (spineLit ++ ([] ++ '>' :: wInsE)))))))))))
      = wOpfA ++ (ver2Lit ++ (wInsB ++ (wInsC ++ (itemNcxLit ++ ('\n' :: (manifestEndLit ++ ([] ++ (spineLit ++ ([] ++ (tocAttrLit ++ ('>' :: wInsE)))))))))))) ∧
    (patchOpf "<m><i href=\"toc.ncx\"/></m>".data
      = subNavProps (replaceAll ver3Lit ver2Lit "<m><i href=\"toc.ncx\"/></m>".data)) :=
  ⟨c6_manifest_spine_insertion.1 wOpfA wInsB [' '] "nav".data wInsC [] [] wInsE
      (by decide) (by decide) (by decide) (by decide) (by decide) (by decide) (by decide)
      (by decide) (by decide) (by decide) (by decide) (by decide) (by decide) (by decide),
    c6_manifest_spine_insertion.2 "<m><i href=\"toc.ncx\"/></m>".data (by decide)⟩

/-- C1: for every navigation tree, walking from the per-conversion
counter reset value 1 (as `convert` does), the play orders assigned in
pre-order are exactly `1..N` with no gaps or repeats, where `N` is the
total item count across all levels; the NCX builder's counter finishes
at `1 + N`; and an item visited at counter `c` takes play order `c`
while its descendants take exactly `c+1 .. c + size`, so a parent's
play order is smaller than all of its descendants' and descendants are
fully numbered before any subsequent sibling. -/
theorem c1_play_order_numbering :
    ∀ (f : NavForest),
      playOrders f 1 = List.range' 1 (countForest f) ∧
      (buildNcxPoints f 1).2 = 1 + countForest f ∧
      ∀ (t : String) (s : Option String) (ch : NavForest) (c : Nat),
        playOrdersItem (NavItem.mk t s ch) c = c :: List.range' (c + 1) (countForest ch) := by
  intro f
  refine ⟨playOrders_eq_range f 1, buildNcxPoints_counter f 1, ?_⟩
  intro t s ch c
  simp only [playOrdersItem]
  rw [playOrders_eq_range ch (c + 1)]

/-! ## Properties of the path model -/

/-- Splitting never yields the empty list of pieces. -/
theorem splitSlash_ne_nil : ∀ (l : List Char), splitSlash l ≠ []
  | [] => by simp [splitSlash]
  | c :: t => by
    simp only [splitSlash]
    split
    · simp
    · split <;> simp

/-- Pieces of a split contain no separator. -/
theorem splitSlash_no_slash : ∀ (l : List Char), ∀ p ∈ splitSlash l, '/' ∉ p
  | [] => by simp [splitSlash]
  | c :: t => by
    intro p hp
    simp only [splitSlash] at hp
    split at hp
    next hc =>
      rcases List.mem_cons.mp hp with rfl | hmem
      · simp
      · exact splitSlash_no_slash t p hmem
    next hc =>
      split at hp
      next h r heq =>
        rcases List.mem_cons.mp hp with rfl | hmem
        · intro hin
          rcases List.mem_cons.mp hin with h1 | h1
          · exact hc h1.symm
          · exact splitSlash_no_slash t h (by rw [heq]; simp) h1
        · exact splitSlash_no_slash t p (by rw [heq]; simp [hmem])
      next heq =>
        rcases List.mem_cons.mp hp with rfl | hmem
        · intro hin
          rcases List.mem_cons.mp hin with h1 | h1
          · exact hc h1.symm
          · cases h1
        · cases hmem

/-- Splitting a slash-free block glued onto a remainder. -/
theorem splitSlash_append : ∀ (p l : List Char), '/' ∉ p →
    ∀ h r, splitSlash l = h :: r → splitSlash (p ++ l) = (p ++ h) :: r
  | [], l, _, h, r, heq => by simpa using heq
  | c :: p', l, hp, h, r, heq => by
    have hc : ¬(c = '/') := by
      intro hc
      exact hp (by simp [hc])
    have ih := splitSlash_append p' l (fun hin => hp (by simp [hin])) h r heq
    rw [List.cons_append, show splitSlash (c :: (p' ++ l))
        = if c = '/' then [] :: splitSlash (p' ++ l)
          else match splitSlash (p' ++ l) with | h :: r => (c :: h) :: r | [] => [[c]] from rfl,
      if_neg hc, ih]
    rfl

/-- Splitting a slash-free block alone. -/
theorem splitSlash_no_sep (p : List Char) (hp : '/' ∉ p) : splitSlash p = [p] := by
  have := splitSlash_append p [] hp [] [] (by simp [splitSlash])
  simpa using this

/-- Splitting inverts joining for nonempty slash-free pieces. -/
theorem splitSlash_join : ∀ (pls : List (List Char)), pls ≠ [] → (∀ p ∈ pls, '/' ∉ p) →
    splitSlash (joinSlash pls) = pls
  | [], h, _ => absurd rfl h
  | [p], _, hcl => by
    simp only [joinSlash]
    exact splitSlash_no_sep p (hcl p (by simp))
  | p :: q :: rest, _, hcl => by
    have ih := splitSlash_join (q :: rest) (by simp) (fun x hx => hcl x (by simp [hx]))
    rw [show joinSlash (p :: q :: rest) = p ++ '/' :: joinSlash (q :: rest) from rfl]
    have hstep : splitSlash ('/' :: joinSlash (q :: rest)) = [] :: splitSlash (joinSlash (q :: rest)) := by
      simp [splitSlash]
    rw [splitSlash_append p ('/' :: joinSlash (q :: rest)) (hcl p (by simp)) [] (splitSlash (joinSlash (q :: rest))) hstep]
    rw [ih]
    simp

/-- Components produced by `pathParts` are clean: nonempty, not `.`,
and slash-free. -/
theorem pathParts_clean (s : String) :
    ∀ p ∈ pathParts s, p ≠ "" ∧ p ≠ "." ∧ '/' ∉ p.data := by
  intro p hp
  simp only [pathParts] at hp
  rw [List.mem_filter] at hp
  obtain ⟨hmem, hpred⟩ := hp
  rcases List.mem_map.mp hmem with ⟨q, hq, rfl⟩
  simp only [decide_eq_true_eq] at hpred
  refine ⟨hpred.1, hpred.2, ?_⟩
  exact splitSlash_no_slash s.data q hq

/-- `pathParts` inverts `posixOfParts` on nonempty clean component
lists. -/
theorem pathParts_posixOfParts (ps : List String) (hne : ps ≠ [])
    (hcl : ∀ p ∈ ps, p ≠ "" ∧ p ≠ "." ∧ '/' ∉ p.data) :
    pathParts (posixOfParts ps) = ps := by
  have hne2 : ps.isEmpty = false := by
    rw [List.isEmpty_eq_false]
    exact hne
  simp only [posixOfParts, hne2, Bool.false_eq_true, if_false]
  have hjoin : splitSlash (joinSlash (ps.map String.data)) = ps.map String.data := by
    apply splitSlash_join
    · simp [hne]
    · intro p hp
      rcases List.mem_map.mp hp with ⟨q, hq, rfl⟩
      exact (hcl q hq).2.2
  simp only [pathParts, hjoin]
  have hmk : (ps.map String.data).map (fun p => String.mk p) = ps := by
    rw [List.map_map]
    have : (fun p => String.mk p) ∘ String.data = id := by
      funext x
      cases x
      rfl
    rw [this, List.map_id]
  rw [hmk]
  rw [List.filter_eq_self]
  intro p hp
  simp only [decide_eq_true_eq]
  exact ⟨(hcl p hp).1, (hcl p hp).2.1⟩

/-- Line 47 on an anchor that does have an `href`: the stored target is
the href, prefixed by the navigation directory when that is
non-trivial. -/
theorem mkSrc_some (dir : List String) (h : String) :
    mkSrc dir (some h)
      = .ok (some (if pathName dir ≠ "" then posixOfParts (dir ++ pathParts h) else h)) := by
  unfold mkSrc
  split
  next => rfl
  next => rfl

/-- C10: a list item containing two anchor elements is parsed into
exactly one navigation item, whose label and target come from the first
anchor in document order; the second anchor is ignored and no error is
raised. -/
theorem c10_multi_anchor_first_only
    (dir : List String) (h1 : String) (ch1 : XTrees)
    (la oa at2 : List (String × String × String)) (ch2 : XTrees) :
    parseNavLevel
      (XTree.elem nsXhtml "ol" oa (.cons
        (XTree.elem nsXhtml "li" la (.cons
          (XTree.elem nsXhtml "a" [("", "href", h1)] ch1)
          (.cons (XTree.elem nsXhtml "a" at2 ch2) .nil))) .nil)) dir
      = .ok (.cons (NavItem.mk (strTrim (XTrees.itertextAll ch1))
          (some (if pathName dir ≠ "" then posixOfParts (dir ++ pathParts h1) else h1))
          .nil) .nil) := by
  simp [parseNavLevel, parseLis, parseFirstOl, firstAnchor, XTrees.toList, XTree.isElem,
    XTree.attr, mkSrc_some, XTree.itertext, List.find?]

/-- C2 counterexample: converting a representative archive twice
succeeds both times, yet the second run's output contains the entry
`toc.ncx` twice — the copy of the first run's NCX and a freshly
synthesized one — so the second run does perform a second `toc.ncx`
insertion into the output archive, contradicting idempotence as
claimed. -/
theorem c2_counterexample :
    isOkOut (convert zEx) = true ∧
    isOkOut (convert (outOf (convert zEx))) = true ∧
    countName (outOf (convert zEx)) "toc.ncx" = 1 ∧
    countName (outOf (convert (outOf (convert zEx)))) "toc.ncx" = 2 := by
  decide

/-- C2 amended: whenever the substituted package text already contains
`toc.ncx` — as it does after a first conversion has inserted the NCX
manifest item — the patcher performs no manifest or spine insertion, so
no duplicate manifest entries or spine attributes are added; on a
representative archive the second run leaves the package text
byte-identical to the first run's, yet the unconditional NCX write
emits a second `toc.ncx` archive entry next to the one copied from the
first run's output. -/
theorem c2_twice_behavior :
    (∀ l, occursIn tocNcxLit (subNavProps (replaceAll ver3Lit ver2Lit l)) = true →
      patchOpf l = subNavProps (replaceAll ver3Lit ver2Lit l)) ∧
    isOkOut (convert zEx) = true ∧
    isOkOut (convert (outOf (convert zEx))) = true ∧
    zreadD (outOf (convert (outOf (convert zEx)))) "content.opf"
      = zreadD (outOf (convert zEx)) "content.opf" ∧
    countName (outOf (convert (outOf (convert zEx)))) "toc.ncx" = 2 := by
  refine ⟨?_, by decide⟩
  intro l htoc
  unfold patchOpf
  simp only [htoc, if_true]

/-- Witness for C2's amended statement: the guard applied at a concrete
package text containing `toc.ncx`. -/
theorem c2_twice_behavior_witness :
    patchOpf "<pkg>toc.ncx</pkg>".data
      = subNavProps (replaceAll ver3Lit ver2Lit "<pkg>toc.ncx</pkg>".data) :=
  c2_twice_behavior.1 "<pkg>toc.ncx</pkg>".data (by decide)

/-- C7 counterexample: with the package document under `OEBPS/`, the
target stored for the parsed navigation item and emitted as the NCX
content source is `c1.xhtml`, which is not an archive-relative path:
the archive has an entry `OEBPS/c1.xhtml` and none named `c1.xhtml`,
and the emitted NCX never mentions the archive-relative path. -/
theorem c7_counterexample :
    hasEntryNamed zSub "OEBPS/c1.xhtml" = true ∧
    hasEntryNamed zSub "c1.xhtml" = false ∧
    isOkOut (convert zSub) = true ∧
    occursIn (strBytes "<content src=\"c1.xhtml\"/>") (zreadD (outOf (convert zSub)) "OEBPS/toc.ncx") = true ∧
    occursIn (strBytes "OEBPS/c1.xhtml") (zreadD (outOf (convert zSub)) "OEBPS/toc.ncx") = false := by
  decide

/-- C7 amended: the stored target of a parsed navigation item is the
anchor's href composed with the navigation document's directory
relative to the package document's own directory — a
package-directory-relative path (archive-relative only when the package
document sits at the archive root): its components are exactly the
navigation directory's components followed by the href's. -/
theorem c7_target_is_package_relative
    (dir : List String) (h1 : String) (ch1 : XTrees)
    (la oa : List (String × String × String))
    (hdir : ∀ p ∈ dir, p ≠ "" ∧ p ≠ "." ∧ '/' ∉ p.data) :
    ∃ s, parseNavLevel
        (XTree.elem nsXhtml "ol" oa (.cons
          (XTree.elem nsXhtml "li" la (.cons
            (XTree.elem nsXhtml "a" [("", "href", h1)] ch1) .nil)) .nil)) dir
        = .ok (.cons (NavItem.mk (strTrim (XTrees.itertextAll ch1)) (some s) .nil) .nil)
      ∧ pathParts s = dir ++ pathParts h1 := by
  refine ⟨if pathName dir ≠ "" then posixOfParts (dir ++ pathParts h1) else h1, ?_, ?_⟩
  · simp [parseNavLevel, parseLis, parseFirstOl, firstAnchor, XTrees.toList, XTree.isElem,
      XTree.attr, mkSrc_some, XTree.itertext, List.find?]
  · by_cases hname : pathName dir ≠ ""
    · rw [if_pos hname]
      apply pathParts_posixOfParts
      · intro hc
        rcases List.append_eq_nil.mp hc with ⟨hd, -⟩
        rw [hd] at hname
        exact hname rfl
      · intro p hp
        rcases List.mem_append.mp hp with h | h
        · exact hdir p h
        · exact pathParts_clean h1 p h
    · rw [if_neg hname]
      have heq : pathName dir = "" := not_not.mp hname
      have hd : dir = [] := by
        cases hl : dir.getLast? with
        | none => exact List.getLast?_eq_none_iff.mp hl
        | some y =>
          have hy : y ∈ dir := List.mem_of_getLast?_eq_some hl
          have : pathName dir = y := by
            simp [pathName, hl]
          rw [heq] at this
          exact absurd (hdir y hy).1 (by simp [← this])
      rw [hd]
      simp

/-- Witness for C7's amended statement: with the navigation document in
`sub/` relative to the package document, an anchor href `c1.xhtml`
yields the stored target `sub/c1.xhtml`, package-directory-relative. -/
theorem c7_target_is_package_relative_witness :
    ∃ s, parseNavLevel
        (XTree.elem nsXhtml "ol" [] (.cons
          (XTree.elem nsXhtml "li" [] (.cons
            (XTree.elem nsXhtml "a" [("", "href", "c1.xhtml")] (.cons (.text "One") .nil)) .nil)) .nil)) ["sub"]
        = .ok (.cons (NavItem.mk (strTrim (XTrees.itertextAll (.cons (.text "One") .nil))) (some s) .nil) .nil)
      ∧ pathParts s = ["sub"] ++ pathParts "c1.xhtml" :=
  c7_target_is_package_relative ["sub"] "c1.xhtml" (.cons (.text "One") .nil) [] [] (by decide)

/-- C8 counterexample: an archive whose package document is valid
ISO-8859-1-declared XML but not UTF-8 makes `convert` fail during the
output write (the decode on line 116 happens inside the output
`ZipFile` block), leaving a partially-written output archive that
already contains the `mimetype` and container entries. -/
theorem c8_counterexample :
    isErrMidOut (convert zLatin) = true ∧
    entryNames (outOf (convert zLatin)) = ["mimetype", "META-INF/container.xml"] := by
  decide

/-- C8 amended: every failure raised before the output archive is
opened leaves no output (outcome `err`); the only failure that can be
raised while the output archive is being written is the package
document failing to decode as UTF-8, and it leaves the partially
written archive on disk — exhibited on a concrete ISO-8859-1 package
document. -/
theorem c8_midwrite_on_decode_failure :
    (∀ (z : Zip) (e : PyErr) (w : Zip), convert z = .errMid e w → e = PyErr.decodeErr) ∧
    isErrMidOut (convert zLatin) = true ∧
    entryNames (outOf (convert zLatin)) = ["mimetype", "META-INF/container.xml"] := by
  refine ⟨?_, by decide, by decide⟩
  intro z e w h
  simp only [convert] at h
  split at h
  · cases h
  split at h
  · cases h
  split at h
  · cases h
  split at h
  · cases h
  split at h
  · cases h
  split at h
  · cases h
  simp only [writeOut] at h
  split at h
  · injection h with h1 h2
    exact h1.symm
  · cases h

/-- Witness for C8's amended statement: the general part applied at the
concrete ISO-8859-1 archive. -/
theorem c8_midwrite_on_decode_failure_witness :
    PyErr.decodeErr = PyErr.decodeErr :=
  c8_midwrite_on_decode_failure.1 zLatin PyErr.decodeErr
    ⟨[⟨"mimetype", strBytes "application/epub+zip", true⟩,
      ⟨"META-INF/container.xml", strBytes containerXmlDoc, false⟩]⟩
    (by decide)

/-- C9: when the root container descriptor is absent, unparsable, or
declares no root file, `convert` fails with an error — the exception
escapes `convert` to its caller (the outcome is `err`, nothing is
caught inside) — and that error is classified as
`MalformedContainerError` by the specification's taxonomy. -/
theorem c9_malformed_container (z : Zip)
    (h : zreadOpt z "META-INF/container.xml" = none ∨
      (∃ b, zreadOpt z "META-INF/container.xml" = some b ∧ parseXml b = none) ∨
      (∃ b x, zreadOpt z "META-INF/container.xml" = some b ∧ parseXml b = some x ∧
        rootfilePaths x = [])) :
    ∃ e, convert z = .err e ∧ specErrorKind e = SpecErrKind.malformedContainer := by
  rcases h with h | ⟨b, hb, hp⟩ | ⟨b, x, hb, hp, hr⟩
  · exact ⟨.keyErr "META-INF/container.xml", by simp [convert, h], by simp [specErrorKind]⟩
  · exact ⟨.parseFailed "container", by simp [convert, hb, hp], by simp [specErrorKind]⟩
  · exact ⟨.indexErr, by simp [convert, hb, hp, hr], by simp [specErrorKind]⟩

/-- Witness for C9: an archive with no container descriptor at all. -/
theorem c9_malformed_container_witness :
    ∃ e, convert (⟨[]⟩ : Zip) = .err e ∧ specErrorKind e = SpecErrKind.malformedContainer :=
  c9_malformed_container ⟨[]⟩ (Or.inl (by decide))

/-! ## Properties of the archive write loop -/

/-- The copy loop only ever appends to its accumulator. -/
theorem copyLoop_inr_extends (z : Zip) (o : String) :
    ∀ (l acc res : List ZEntry), copyLoop z o acc l = .inr res → ∃ t, res = acc ++ t
  | [], acc, res, h => by
    simp only [copyLoop] at h
    injection h with h1
    exact ⟨[], by simp [← h1]⟩
  | e :: rest, acc, res, h => by
    simp only [copyLoop] at h
    split at h
    · exact copyLoop_inr_extends z o rest acc res h
    · split at h
      · split at h
        · cases h
        · obtain ⟨t, ht⟩ := copyLoop_inr_extends z o rest _ res h
          rw [ht, List.append_assoc]
          exact ⟨_, rfl⟩
      · obtain ⟨t, ht⟩ := copyLoop_inr_extends z o rest _ res h
        rw [ht, List.append_assoc]
        exact ⟨_, rfl⟩

/-- When the copy loop aborts, the entries already written also extend
the accumulator. -/
theorem copyLoop_inl_extends (z : Zip) (o : String) :
    ∀ (l acc w : List ZEntry), copyLoop z o acc l = .inl w → ∃ t, w = acc ++ t
  | [], acc, w, h => by
    simp only [copyLoop] at h
    cases h
  | e :: rest, acc, w, h => by
    simp only [copyLoop] at h
    split at h
    · exact copyLoop_inl_extends z o rest acc w h
    · split at h
      · split at h
        · injection h with h1
          exact ⟨[], by simp [← h1]⟩
        · obtain ⟨t, ht⟩ := copyLoop_inl_extends z o rest _ w h
          rw [ht, List.append_assoc]
          exact ⟨_, rfl⟩
      · obtain ⟨t, ht⟩ := copyLoop_inl_extends z o rest _ w h
        rw [ht, List.append_assoc]
        exact ⟨_, rfl⟩

/-- The names written by the copy loop: the accumulator's names
followed by the names of all non-`mimetype` entries, in order (the
package document keeps its name). -/
theorem copyLoop_inr_names (z : Zip) (o : String) :
    ∀ (l acc res : List ZEntry), copyLoop z o acc l = .inr res →
      res.map ZEntry.name
        = acc.map ZEntry.name ++ (l.filter (fun e => !decide (e.name = "mimetype"))).map ZEntry.name
  | [], acc, res, h => by
    simp only [copyLoop] at h
    injection h with h1
    simp [← h1]
  | e :: rest, acc, res, h => by
    simp only [copyLoop] at h
    split at h
    next hmt =>
      have ih := copyLoop_inr_names z o rest acc res h
      simp [List.filter_cons, hmt, ih]
    next hmt =>
      split at h
      · split at h
        · cases h
        · have ih := copyLoop_inr_names z o rest _ res h
          simp [List.filter_cons, hmt, ih]
      · have ih := copyLoop_inr_names z o rest _ res h
        simp [List.filter_cons, hmt, ih]

/-- Every entry that is neither the `mimetype` entry nor the package
document is written by the copy loop with the bytes the archive reader
yields for its name and with its own storage mode. -/
theorem copyLoop_inr_mem (z : Zip) (o : String) :
    ∀ (l acc res : List ZEntry), copyLoop z o acc l = .inr res →
      ∀ e ∈ l, ¬(e.name = "mimetype") → ¬(e.name = o) →
        (⟨e.name, zreadD z e.name, e.stored⟩ : ZEntry) ∈ res
  | [], _, _, _ => by
    intro e he
    cases he
  | e0 :: rest, acc, res, h => by
    intro e he hmt hopf
    rcases List.mem_cons.mp he with rfl | hmem
    · rw [show copyLoop z o acc (e :: rest)
          = copyLoop z o (acc ++ [⟨e.name, zreadD z e.name, e.stored⟩]) rest from by
        simp only [copyLoop, if_neg hmt, if_neg hopf]] at h
      obtain ⟨t, ht⟩ := copyLoop_inr_extends z o rest _ res h
      rw [ht]
      simp
    · by_cases h1 : e0.name = "mimetype"
      · rw [show copyLoop z o acc (e0 :: rest) = copyLoop z o acc rest from by
            simp only [copyLoop, if_pos h1]] at h
        exact copyLoop_inr_mem z o rest acc res h e hmem hmt hopf
      · by_cases h2 : e0.name = o
        · rcases hd : utf8Decode (zreadD z e0.name) with _ | cs
          · rw [show copyLoop z o acc (e0 :: rest) = .inl acc from by
                simp only [copyLoop, if_neg h1, if_pos h2, hd]] at h
            cases h
          · rw [show copyLoop z o acc (e0 :: rest)
                = copyLoop z o (acc ++ [⟨e0.name, utf8Encode (patchOpf cs), false⟩]) rest from by
                simp only [copyLoop, if_neg h1, if_pos h2, hd]] at h
            exact copyLoop_inr_mem z o rest _ res h e hmem hmt hopf
        · rw [show copyLoop z o acc (e0 :: rest)
              = copyLoop z o (acc ++ [⟨e0.name, zreadD z e0.name, e0.stored⟩]) rest from by
              simp only [copyLoop, if_neg h1, if_neg h2]] at h
          exact copyLoop_inr_mem z o rest _ res h e hmem hmt hopf

/-- Folding the last-wins read over entries none of which carry the
requested name leaves the accumulator unchanged. -/
theorem zread_foldl_skip (n : String) :
    ∀ (l : List ZEntry) (acc : Option (List Nat)), (∀ e ∈ l, ¬(e.name = n)) →
      List.foldl (fun acc e => if e.name = n then some e.data else acc) acc l = acc
  | [], _, _ => rfl
  | e :: rest, acc, h => by
    simp only [List.foldl_cons, if_neg (h e (by simp))]
    exact zread_foldl_skip n rest acc (fun e' he' => h e' (by simp [he']))

/-- With unique entry names, the last-wins read returns each entry's
own bytes. -/
theorem zreadOpt_of_nodup (z : Zip) (hnd : (z.entries.map ZEntry.name).Nodup) :
    ∀ e ∈ z.entries, zreadOpt z e.name = some e.data := by
  obtain ⟨l⟩ := z
  simp only [zreadOpt]
  induction l with
  | nil => intro e he; cases he
  | cons a rest ih =>
    intro e he
    rcases List.mem_cons.mp he with rfl | hmem
    · simp only [List.foldl_cons, if_pos rfl]
      apply zread_foldl_skip
      intro e' he' hc
      have : e.name ∈ rest.map ZEntry.name := by
        rw [← hc]
        exact List.mem_map_of_mem ZEntry.name he'
      exact (List.nodup_cons.mp hnd).1 this
    · simp only [List.foldl_cons]
      have hnd' := (List.nodup_cons.mp hnd).2
      by_cases ha : a.name = e.name
      · exfalso
        have : a.name ∈ rest.map ZEntry.name := by
          rw [ha]
          exact List.mem_map_of_mem ZEntry.name hmem
        exact (List.nodup_cons.mp hnd).1 this
      · simp only [if_neg ha]
        exact ih hnd' e hmem

/-- Inversion of a successful `writeOut`. -/
theorem writeOut_ok_inv (z : Zip) (o tn ncx : String) (out : Zip)
    (h : writeOut z o tn ncx = .ok out) :
    ∃ res, copyLoop z o
        (if hasEntryNamed z "mimetype" = true then [⟨"mimetype", zreadD z "mimetype", true⟩] else [])
        z.entries = .inr res
      ∧ out = ⟨res ++ [⟨tn, strBytes ncx, false⟩]⟩ := by
  simp only [writeOut] at h
  split at h
  · cases h
  next res heq =>
    injection h with h1
    exact ⟨res, heq, h1.symm⟩

/-- Inversion of a successful `convert`: the package path was located
and the output archive was produced by `writeOut` with the NCX placed
next to the package document. -/
theorem convert_ok_inv (z : Zip) (out : Zip) (h : convert z = .ok out) :
    ∃ ps ncx, opfPartsOf z = some ps ∧
      writeOut z (posixOfParts ps) (posixOfParts (pathParent ps ++ ["toc.ncx"])) ncx = .ok out := by
  simp only [convert] at h
  split at h
  · cases h
  next cb hcb =>
    split at h
    · cases h
    next cx hcx =>
      split at h
      · cases h
      next p tail hroot =>
        split at h
        · cases h
        next ob hob =>
          split at h
          · cases h
          next ox hox =>
            split at h
            · cases h
            next navf hnav =>
              refine ⟨pathParts p, _, ?_, h⟩
              simp [opfPartsOf, hcb, hcx, hroot]

/-- Inversion of a mid-write failure of `convert`: the entries written
so far start from the `mimetype`-first prelude. -/
theorem convert_errMid_inv (z : Zip) (e : PyErr) (w : Zip) (h : convert z = .errMid e w) :
    ∃ o written, copyLoop z o
        (if hasEntryNamed z "mimetype" = true then [⟨"mimetype", zreadD z "mimetype", true⟩] else [])
        z.entries = .inl written ∧ w = ⟨written⟩ := by
  simp only [convert] at h
  split at h
  · cases h
  split at h
  · cases h
  split at h
  · cases h
  split at h
  · cases h
  split at h
  · cases h
  split at h
  · cases h
  simp only [writeOut] at h
  split at h
  next written heq =>
    injection h with h1 h2
    exact ⟨_, written, heq, h2.symm⟩
  · cases h

/-- C4: whenever the input archive contains an entry named `mimetype`,
any output archive written — the complete output of a successful
conversion, or even the partial output left by a mid-write failure —
has `mimetype` as its first entry, written with uncompressed (stored)
storage, regardless of the storage mode the entry had in the input
(which is unconstrained here). -/
theorem c4_mimetype_first :
    (∀ (z out : Zip), convert z = .ok out → hasEntryNamed z "mimetype" = true →
      out.entries.head? = some ⟨"mimetype", zreadD z "mimetype", true⟩) ∧
    (∀ (z : Zip) (e : PyErr) (w : Zip), convert z = .errMid e w → hasEntryNamed z "mimetype" = true →
      w.entries.head? = some ⟨"mimetype", zreadD z "mimetype", true⟩) := by
  constructor
  · intro z out h hm
    obtain ⟨ps, ncx, -, hw⟩ := convert_ok_inv z out h
    obtain ⟨res, hcl, rfl⟩ := writeOut_ok_inv z _ _ _ out hw
    rw [if_pos hm] at hcl
    obtain ⟨t, ht⟩ := copyLoop_inr_extends z _ _ _ _ hcl
    simp [ht]
  · intro z e w h hm
    obtain ⟨o, written, hcl, rfl⟩ := convert_errMid_inv z e w h
    rw [if_pos hm] at hcl
    obtain ⟨t, ht⟩ := copyLoop_inl_extends z _ _ _ _ hcl
    simp [ht]

/-- Witness for C4: the representative archive carries a deflated
`mimetype` entry, and the converted output still leads with a stored
`mimetype` entry. -/
theorem c4_mimetype_first_witness :
    (outOf (convert zEx)).entries.head? = some ⟨"mimetype", zreadD zEx "mimetype", true⟩ :=
  c4_mimetype_first.1 zEx (outOf (convert zEx)) (by decide) (by decide)

/-- C3 counterexample: with two input entries named `a.txt` holding
different bytes, the conversion succeeds but the copy loop reads every
entry through the name-to-info map, in which the later entry wins; the
first `a.txt` entry's bytes (88) appear nowhere in the output, so that
entry does not appear byte-identical under its name. -/
theorem c3_counterexample :
    (⟨"a.txt", [88], true⟩ : ZEntry) ∈ zDup.entries ∧
    isOkOut (convert zDup) = true ∧
    (outOf (convert zDup)).entries.any (fun e => e.name = "a.txt" && e.data = ([88] : List Nat)) = false ∧
    (outOf (convert zDup)).entries.countP (fun e => e.name = "a.txt" && e.data = ([89] : List Nat)) = 2 := by
  decide

/-- With unique names, the entries carrying a present name filter to a
single occurrence of that name. -/
theorem filter_name_single :
    ∀ (l : List ZEntry), (l.map ZEntry.name).Nodup → ∀ (n : String), (∃ e ∈ l, e.name = n) →
      (l.filter (fun e => decide (e.name = n))).map ZEntry.name = [n]
  | [], _, n, hex => by
    obtain ⟨e, he, -⟩ := hex
    cases he
  | a :: rest, hnd, n, hex => by
    by_cases ha : a.name = n
    · have hrest : rest.filter (fun e => decide (e.name = n)) = [] := by
        rw [List.filter_eq_nil_iff]
        intro e he hc
        have hc2 : e.name = n := of_decide_eq_true hc
        have : a.name ∈ rest.map ZEntry.name := by
          rw [ha, ← hc2]
          exact List.mem_map_of_mem ZEntry.name he
        exact (List.nodup_cons.mp hnd).1 this
      simp [List.filter_cons, ha, hrest]
    · obtain ⟨e, he, hen⟩ := hex
      rcases List.mem_cons.mp he with rfl | hmem
      · exact absurd hen ha
      · have ih := filter_name_single rest (List.nodup_cons.mp hnd).2 n ⟨e, hmem, hen⟩
        simp [List.filter_cons, ha, ih]

/-- C3 amended: for a successfully converted archive whose entry names
are unique, every input entry other than the package document appears
in the output byte-identical and under the same name; the output's
entry names are, up to the mimetype reordering, exactly the input's
names plus one new `toc.ncx` entry placed alongside the package
document, and that NCX entry is the last one written.  (Without the
uniqueness hypothesis, duplicate-named entries are all written with the
bytes of the last duplicate, as the counterexample shows.) -/
theorem c3_entries_preserved (z out : Zip) (h : convert z = .ok out)
    (hnd : (z.entries.map ZEntry.name).Nodup) :
    ∃ ps, opfPartsOf z = some ps ∧
      (∀ e ∈ z.entries, ¬(e.name = posixOfParts ps) →
        ∃ e' ∈ out.entries, e'.name = e.name ∧ e'.data = e.data) ∧
      List.Perm (entryNames out) (entryNames z ++ [posixOfParts (pathParent ps ++ ["toc.ncx"])]) ∧
      ∃ d, out.entries.getLast? = some ⟨posixOfParts (pathParent ps ++ ["toc.ncx"]), d, false⟩ := by
  obtain ⟨ps, ncx, hps, hw⟩ := convert_ok_inv z out h
  obtain ⟨res, hcl, rfl⟩ := writeOut_ok_inv z _ _ _ out hw
  refine ⟨ps, hps, ?_, ?_, ?_⟩
  · intro e he hopf
    by_cases hmt : e.name = "mimetype"
    · have hm : hasEntryNamed z "mimetype" = true := by
        simp only [hasEntryNamed, List.any_eq_true]
        exact ⟨e, he, by simp [hmt]⟩
      rw [if_pos hm] at hcl
      obtain ⟨t, ht⟩ := copyLoop_inr_extends z _ _ _ _ hcl
      refine ⟨⟨"mimetype", zreadD z "mimetype", true⟩, ?_, by simp [hmt], ?_⟩
      · simp [ht]
      · rw [← hmt]
        have := zreadOpt_of_nodup z hnd e he
        simp [zreadD, this]
    · refine ⟨⟨e.name, zreadD z e.name, e.stored⟩, ?_, rfl, ?_⟩
      · have hmem := copyLoop_inr_mem z _ _ _ _ hcl e he hmt hopf
        simp only [List.mem_append]
        exact Or.inl hmem
      · have := zreadOpt_of_nodup z hnd e he
        simp [zreadD, this]
  · have hnames := copyLoop_inr_names z _ _ _ _ hcl
    have hperm : List.Perm (res.map ZEntry.name) (z.entries.map ZEntry.name) := by
      by_cases hm : hasEntryNamed z "mimetype" = true
      · rw [if_pos hm] at hnames
        have hex : ∃ e ∈ z.entries, e.name = "mimetype" := by
          simp only [hasEntryNamed, List.any_eq_true] at hm
          obtain ⟨e, he, hn⟩ := hm
          exact ⟨e, he, of_decide_eq_true hn⟩
        have hsplit := List.filter_append_perm (fun e => decide (e.name = "mimetype")) z.entries
        have hmap := hsplit.map ZEntry.name
        rw [List.map_append, filter_name_single z.entries hnd "mimetype" hex] at hmap
        rw [hnames]
        simp only [List.map_cons, List.map_nil]
        exact hmap
      · rw [if_neg hm] at hnames
        have hall : z.entries.filter (fun e => !decide (e.name = "mimetype")) = z.entries := by
          rw [List.filter_eq_self]
          intro e he
          simp only [Bool.not_eq_true']
          rw [decide_eq_false_iff_not]
          intro hc
          apply hm
          simp only [hasEntryNamed, List.any_eq_true]
          exact ⟨e, he, by simp [hc]⟩
        rw [hnames, hall]
        simp
    have : entryNames (⟨res ++ [⟨posixOfParts (pathParent ps ++ ["toc.ncx"]), strBytes ncx, false⟩]⟩ : Zip)
        = res.map ZEntry.name ++ [posixOfParts (pathParent ps ++ ["toc.ncx"])] := by
      simp [entryNames]
    rw [this]
    exact hperm.append_right _
  · exact ⟨strBytes ncx, by simp [List.getLast?_concat]⟩

/-- Witness for C3's amended statement: the representative archive has
unique entry names; its non-package entries all reappear byte-identical
and the only addition is `toc.ncx` at the archive root (the package
document's own directory), written last. -/
theorem c3_entries_preserved_witness :
    ∃ ps, opfPartsOf zEx = some ps ∧
      (∀ e ∈ zEx.entries, ¬(e.name = posixOfParts ps) →
        ∃ e' ∈ (outOf (convert zEx)).entries, e'.name = e.name ∧ e'.data = e.data) ∧
      List.Perm (entryNames (outOf (convert zEx))) (entryNames zEx ++ [posixOfParts (pathParent ps ++ ["toc.ncx"])]) ∧
      ∃ d, (outOf (convert zEx)).entries.getLast? = some ⟨posixOfParts (pathParent ps ++ ["toc.ncx"]), d, false⟩ :=
  c3_entries_preserved zEx (outOf (convert zEx)) (by decide) (by decide)
